import Mathlib

/-!
# Verification of the polygon area/volume engine of csp-measurement-tools

A shallow embedding of the computational-geometry core of the measurement-tools
plugin (`PolygonTool.cpp`, `Beachline.cpp` and friends), together with theorems
settling the frozen specification claims.

Modelling conventions:

* C++ `double` values are modelled as `ℚ` for the planar (Voronoi-plane)
  computations, which involve only field operations and comparisons, and as `ℝ`
  for the 3D pipeline, which involves square roots (`glm::length`,
  `glm::normalize`).
* Division by zero follows the Lean convention `q / 0 = 0`.  The C++ code
  produces IEEE infinities or NaNs there; every theorem below either avoids
  such inputs through its hypotheses or is checked to coincide with the IEEE
  outcome at the inputs it touches.
* The external collaborators (the body-height oracle, the
  `cs::utils::convert` coordinate converters, and the sweep-line Voronoi
  generator whose implementation file is not part of this snapshot) enter as
  function parameters of the embedded definitions.
-/

set_option autoImplicit false

namespace MeasurementTools

/-- A planar site with a stable integer address.  `Site.hpp` is only declared
in this snapshot; the fields and the constructor `Site(x, y, addr)` are taken
from the uses throughout `PolygonTool.cpp` and the beach-line sources, and from
the spec's data model ("A 2D point `(x, y)` with a stable integer address
`addr`"). -/
structure Site where
  mX : ℚ
  mY : ℚ
  mAddr : ℤ
deriving DecidableEq, Repr

/-- The boolean inequality `a != b` applied to two C++ comparison results. -/
def bne2 (a b : Prop) [Decidable a] [Decidable b] : Bool :=
  decide a != decide b

/-- One loop iteration of `PolygonTool::checkPoint` (PolygonTool.cpp,
lines 217-230): whether the edge from corner `cj` to corner `ci` toggles the
running parity bit for the query point `(px, py)`.  The first branch is the
classical strict crossing test, the second branch re-toggles when the query
point is within `0.001` of the crossing abscissa. -/
def checkPointEdgeToggles (px py : ℚ) (ci cj : Site) : Bool :=
  if bne2 (ci.mY > py) (cj.mY > py) &&
      decide (px < (cj.mX - ci.mX) * (py - ci.mY) / (cj.mY - ci.mY) + ci.mX) then
    true
  else if bne2 (ci.mY > py) (cj.mY > py) &&
      decide (|px - ((cj.mX - ci.mX) * (py - ci.mY) / (cj.mY - ci.mY) + ci.mX)| < 1/1000) then
    true
  else
    false

/-- `PolygonTool::checkPoint` (PolygonTool.cpp, lines 212-232): the point-in-
polygon test used to keep interior triangles.  The C++ loop runs `i` over all
corner indices with `j` the cyclically previous index, toggling `result` for
each edge that passes one of the two branch tests. -/
def checkPoint (corners : List Site) (px py : ℚ) : Bool :=
  (List.range corners.length).foldl
    (fun result i =>
      let ci := corners.getD i ⟨0, 0, 0⟩
      let cj := corners.getD (if i = 0 then corners.length - 1 else i - 1) ⟨0, 0, 0⟩
      if checkPointEdgeToggles px py ci cj then !result else result)
    false

/-- The specification-side predicate of claim C9: the polygon edge from `cj` to
`ci` straddles the query point's `y`-coordinate, and its `x`-coordinate at that
`y`, increased by the absolute constant `0.001`, exceeds the query point's
`x`-coordinate. -/
def crossesShifted (px py : ℚ) (ci cj : Site) : Bool :=
  bne2 (ci.mY > py) (cj.mY > py) &&
    decide (px < (cj.mX - ci.mX) * (py - ci.mY) / (cj.mY - ci.mY) + ci.mX + 1/1000)

/-- The classical half-line crossing-parity test with every crossing threshold
shifted by `+0.001` in the `+x` direction, as claim C9 describes it: the query
point is inside exactly when the number of shifted crossings is odd. -/
def crossingParity (corners : List Site) (px py : ℚ) : Bool :=
  decide (Odd ((List.range corners.length).countP (fun i =>
    let ci := corners.getD i ⟨0, 0, 0⟩
    let cj := corners.getD (if i = 0 then corners.length - 1 else i - 1) ⟨0, 0, 0⟩
    crossesShifted px py ci cj)))

/-- `PolygonTool::findIntersection` (PolygonTool.cpp, lines 236-286): the
closed-form segment-segment intersection used by edge recovery, with the
leading zero-coordinate guard, the bounding-box check and the 1% relative
safety band around all four endpoints.  The C++ version reports success
through its `bool` return and writes the intersection into two out-parameters;
here the pair is returned as an `Option`. -/
def findIntersection (s1 s2 s3 s4 : Site) : Option (ℚ × ℚ) :=
  if s1.mX = 0 ∨ s2.mX = 0 ∨ s3.mX = 0 ∨ s4.mX = 0 ∨
      s1.mY = 0 ∨ s2.mY = 0 ∨ s3.mY = 0 ∨ s4.mY = 0 then
    none
  else
    let safety : ℚ := 1/100
    let m1 := (s2.mY - s1.mY) / (s2.mX - s1.mX)
    let c1 := s1.mY - m1 * s1.mX
    let m2 := (s4.mY - s3.mY) / (s4.mX - s3.mX)
    let c2 := s3.mY - m2 * s3.mX
    if m1 ≠ m2 then
      let ix := (c2 - c1) / (m1 - m2)
      let iy := m1 * ix + c1
      if bne2 (s1.mX > ix) (s2.mX > ix) && bne2 (s3.mX > ix) (s4.mX > ix) &&
          bne2 (s1.mY > iy) (s2.mY > iy) && bne2 (s3.mY > iy) (s4.mY > iy) then
        if (|(s1.mX - ix) / s1.mX| > safety ∨ |(s1.mY - iy) / s1.mY| > safety) ∧
            (|(s2.mX - ix) / s2.mX| > safety ∨ |(s2.mY - iy) / s2.mY| > safety) ∧
            (|(s3.mX - ix) / s3.mX| > safety ∨ |(s3.mY - iy) / s3.mY| > safety) ∧
            (|(s4.mX - ix) / s4.mX| > safety ∨ |(s4.mY - iy) / s4.mY| > safety) then
          some (ix, iy)
        else
          none
      else
        none
    else
      none

/-! ## Beach-line arc insertion (Beachline.cpp) -/
/-- Result of one `Beachline::insertArcFor` call: the new left-to-right arc
focus sequence, the `VoronoiGenerator::addTriangulationEdge` calls made, and
the numbers of `Breakpoint` objects constructed and inserted into the
breakpoint index. -/
structure InsertArcResult where
  arcs : List Site
  edges : List (Site × Site)
  bpCreated : ℕ
  bpInserted : ℕ
deriving Repr

/-- `Beachline::insertArcFor` (Beachline.cpp, lines 20-67).  The beach line is
represented by the left-to-right sequence of its arc foci.  `aIdx` abstracts
`mBreakPoints.getArcAt(site.mX)` — the index of the arc vertically above the
new site — whose balanced-tree implementation file is not part of this
snapshot; when the beach line consists of a single root arc the code uses
`mRoot`, which every index denotes here.  In the degenerate same-`y` case the
new arc is placed next to the broken arc on the side given by the `x`
comparison, with one breakpoint between them; in the general case the broken
arc is split into `A_left, new, A_right` (both outer arcs keeping the focus of
`A`) with two breakpoints.  In each non-empty case exactly one Delaunay edge
`(A.site, site)` is emitted. -/
def insertArcFor (beach : List Site) (aIdx : ℕ) (site : Site) : InsertArcResult :=
  match beach with
  | [] => { arcs := [site], edges := [], bpCreated := 0, bpInserted := 0 }
  | _ =>
    let a := beach.getD aIdx ⟨0, 0, 0⟩
    if site.mY = a.mY then
      if site.mX < a.mX then
        { arcs := beach.take aIdx ++ [site] ++ beach.drop aIdx,
          edges := [(a, site)], bpCreated := 1, bpInserted := 1 }
      else
        { arcs := beach.take (aIdx + 1) ++ [site] ++ beach.drop (aIdx + 1),
          edges := [(a, site)], bpCreated := 1, bpInserted := 1 }
    else
      { arcs := beach.take aIdx ++ [a, site, a] ++ beach.drop (aIdx + 1),
        edges := [(a, site)], bpCreated := 2, bpInserted := 2 }

/-! ## Adaptive terrain-mismatch refinement (`PolygonTool::refineMesh`) -/
/-- The two-quotient multiplicative mismatch check used throughout
`refineMesh`: `a / b > heightDiff || b / a > heightDiff`. -/
def mismatch (heightDiff a b : ℚ) : Prop :=
  a / b > heightDiff ∨ b / a > heightDiff

instance (heightDiff a b : ℚ) : Decidable (mismatch heightDiff a b) :=
  inferInstanceAs (Decidable (_ ∨ _))

/-- The point dividing the edge `e1 → e2` in the ratio `i : j - i`
(`avgPoint3` of PolygonTool.cpp, lines 677-678). -/
def interPt (e1 e2 : Site) (i j : ℕ) : ℚ × ℚ :=
  (((i : ℚ) * e1.mX + ((j : ℚ) - (i : ℚ)) * e2.mX) / (j : ℚ),
   ((i : ℚ) * e1.mY + ((j : ℚ) - (i : ℚ)) * e2.mY) / (j : ℚ))

/-- The linear interpolation of the endpoint heights at ratio `i : j - i`
(the comparison value of PolygonTool.cpp, lines 687-688). -/
def interCmp (h1 h2 : ℚ) (i j : ℕ) : ℚ :=
  ((i : ℚ) * h1 + ((j : ℚ) - (i : ℚ)) * h2) / (j : ℚ)

/-- One check of the inner `for (int i = 1; i < j; i++)` loop of
`PolygonTool::refineMesh` (PolygonTool.cpp, lines 675-692): the intermediate
point is appended (with the `fine` flag cleared) when its height mismatches
the interpolated endpoint heights. -/
def refineStep (heightAt : ℚ → ℚ → ℚ) (heightDiff : ℚ) (e1 e2 : Site)
    (h1 h2 : ℚ) (j : ℕ) (st : List Site × Bool) (i : ℕ) : List Site × Bool :=
  if mismatch heightDiff (heightAt (interPt e1 e2 i j).1 (interPt e1 e2 i j).2)
      (interCmp h1 h2 i j) then
    (st.1 ++ [⟨(interPt e1 e2 i j).1, (interPt e1 e2 i j).2, st.1.length⟩], false)
  else
    st

/-- One intermediate level `j` of `PolygonTool::refineMesh`: the inner loop
runs `i = 1 .. j - 1`. -/
def refineLevel (heightAt : ℚ → ℚ → ℚ) (heightDiff : ℚ) (e1 e2 : Site)
    (h1 h2 : ℚ) (j : ℕ) (st : List Site × Bool) : List Site × Bool :=
  (List.range' 1 (j - 1)).foldl (refineStep heightAt heightDiff e1 e2 h1 h2 j) st

/-- `PolygonTool::refineMesh` (PolygonTool.cpp, lines 647-696).  `heightAt`
abstracts the pure composite map from Voronoi-plane coordinates to the body
height of the corresponding surface point (the chain
`getHeight(toLngLatHeight(normalize(mMiddlePoint + mdist·x·east + mdist·y·north)·r))`
of external utilities and the height oracle); `h1`, `h2` are the endpoint
heights computed by the preceding `displayMesh` call, `heightDiff` the
setting `mHeightDiff`, `corners` the per-triangle list `mCornersFine[count]`
and `fine` the caller's running flag.  The C++ local `length` is computed but
never used and is omitted.  If the midpoint height check fires, the midpoint
is appended and `fine` cleared; otherwise the trisecting/quartering/quintile
levels `j = 3, 4, 5` run, each level guarded by `if (fine)`. -/
def refineMesh (heightAt : ℚ → ℚ → ℚ) (heightDiff : ℚ) (e1 e2 : Site)
    (h1 h2 : ℚ) (corners : List Site) (fine : Bool) : List Site × Bool :=
  let avgX := (e1.mX + e2.mX) / 2
  let avgY := (e1.mY + e2.mY) / 2
  if mismatch heightDiff (heightAt avgX avgY) ((h1 + h2) / 2) then
    (corners ++ [⟨avgX, avgY, corners.length⟩], false)
  else
    [3, 4, 5].foldl
      (fun st j =>
        if st.2 then refineLevel heightAt heightDiff e1 e2 h1 h2 j st else st)
      (corners, fine)

/-! ## Mesh construction and edge recovery (`PolygonTool::createMesh`) -/
/-- A Delaunay triangle, `typedef std::tuple<Site, Site, Site> Triangle`
(VoronoiGenerator.hpp, line 23). -/
def Triangle := Site × Site × Site

/-- The edge-qualification test of the edge-recovery scan (PolygonTool.cpp,
lines 312-314): a triangulation edge corresponds to an original polygon edge
when its endpoint addresses are consecutive (or wrap around) and both are
below the corner count.  Addresses are modelled as `ℤ`; they are nonnegative
for every site the tool constructs. -/
def qualifies (N : ℤ) (s : Site × Site) : Prop :=
  (|s.2.mAddr - s.1.mAddr| = 1 ∨ |s.2.mAddr - s.1.mAddr| = N - 1) ∧
    s.1.mAddr < N ∧ s.2.mAddr < N

instance (N : ℤ) (s : Site × Site) : Decidable (qualifies N s) :=
  inferInstanceAs (Decidable (_ ∧ _))

/-- The address ordering applied before a found polygon edge is saved
(PolygonTool.cpp, lines 322-330). -/
def orderEdge (N : ℤ) (s : Site × Site) : Site × Site :=
  if (s.1.mAddr = N - 1 ∧ s.2.mAddr = 0) ∨
      (s.2.mAddr > s.1.mAddr ∧ ¬(s.1.mAddr = 0 ∧ s.2.mAddr = N - 1)) then
    (s.1, s.2)
  else
    (s.2, s.1)

/-- The polygon edges found in the triangulation (`voronoiEdges`,
PolygonTool.cpp, lines 310-334). -/
def collectPolygonEdges (tri : List (Site × Site)) (N : ℤ) : List (Site × Site) :=
  tri.filterMap (fun s => if qualifies N s then some (orderEdge N s) else none)

/-- The address of the far end of the polygon edge starting at `i`
(PolygonTool.cpp, lines 352-367): `0` for the closing edge, `i + 1`
otherwise. -/
def missingTarget (N i : ℤ) : ℤ :=
  if i = N - 1 then 0 else i + 1

/-- Whether `voronoiEdges` contains the polygon edge `(i, tgt)`
(the `found` scan of PolygonTool.cpp, lines 352-367). -/
def edgeFound (voronoiEdges : List (Site × Site)) (i tgt : ℤ) : Bool :=
  voronoiEdges.any (fun v => v.1.mAddr = i ∧ v.2.mAddr = tgt)

/-- The site-by-address scan of PolygonTool.cpp, lines 377-387: both pair
components are checked in order and the last match wins; the start value is
`Site(0, 0, 0)`. -/
def scanSite (tri : List (Site × Site)) (addr : ℤ) : Site :=
  tri.foldl
    (fun acc s =>
      let acc1 := if s.1.mAddr = addr then s.1 else acc
      if s.2.mAddr = addr then s.2 else acc1)
    ⟨0, 0, 0⟩

/-- The ordered insertion of one intersection point into `addCorners`
(PolygonTool.cpp, lines 395-473).  The C++ walks the vector with a `done`
flag and an `oldCorner` carry: before the insertion position it keeps
elements whose address is below `addrNew` (and, at equal addresses, elements
closer to `site1` along the edge direction); at the insertion position it
stores the new corner and from then on shifts every element one slot later,
appending the final carry. -/
def insertAddCornerGo (addrNew : ℤ) (ix iy : ℚ) (site1 : Site) :
    List Site → Site → Bool → List Site
  | [], oldCorner, done =>
    if done then [oldCorner] else [⟨ix, iy, addrNew⟩]
  | c :: rest, oldCorner, done =>
    if done then
      oldCorner :: insertAddCornerGo addrNew ix iy site1 rest c true
    else if c.mAddr < addrNew then
      c :: insertAddCornerGo addrNew ix iy site1 rest oldCorner false
    else if c.mAddr = addrNew then
      if ix > site1.mX then
        if c.mX > ix then
          (⟨ix, iy, addrNew⟩ : Site) :: insertAddCornerGo addrNew ix iy site1 rest c true
        else
          c :: insertAddCornerGo addrNew ix iy site1 rest oldCorner false
      else if ix < site1.mX then
        if c.mX < ix then
          (⟨ix, iy, addrNew⟩ : Site) :: insertAddCornerGo addrNew ix iy site1 rest c true
        else
          c :: insertAddCornerGo addrNew ix iy site1 rest oldCorner false
      else
        if iy > site1.mY then
          if c.mY > iy then
            (⟨ix, iy, addrNew⟩ : Site) :: insertAddCornerGo addrNew ix iy site1 rest c true
          else
            c :: insertAddCornerGo addrNew ix iy site1 rest oldCorner false
        else if iy < site1.mY then
          if c.mY < iy then
            (⟨ix, iy, addrNew⟩ : Site) :: insertAddCornerGo addrNew ix iy site1 rest c true
          else
            c :: insertAddCornerGo addrNew ix iy site1 rest oldCorner false
        else
          c :: insertAddCornerGo addrNew ix iy site1 rest oldCorner false
    else
      (⟨ix, iy, addrNew⟩ : Site) :: insertAddCornerGo addrNew ix iy site1 rest c true

/-- Entry point of the ordered insertion: carry starts as `Site(0, 0, 0)` with
`done = false`. -/
def insertAddCorner (addCorners : List Site) (addrNew : ℤ) (ix iy : ℚ) (site1 : Site) :
    List Site :=
  insertAddCornerGo addrNew ix iy site1 addCorners ⟨0, 0, 0⟩ false

/-- The intersection loop for one missing edge (PolygonTool.cpp,
lines 391-478): every triangulation edge is tested against the missing edge
`site1 → site2` and each confirmed intersection is inserted into
`addCorners` with insertion address `site1.mAddr + 1`. -/
def addIntersections (tri : List (Site × Site)) (site1 site2 : Site)
    (addCorners : List Site) : List Site :=
  tri.foldl
    (fun ac s =>
      match findIntersection site1 site2 s.1 s.2 with
      | some (ix, iy) => insertAddCorner ac (site1.mAddr + 1) ix iy site1
      | none => ac)
    addCorners

/-- The missing-edge loop (PolygonTool.cpp, lines 347-480): for every corner
index whose polygon edge is absent from `voronoiEdges`, the edge's two sites
are recovered by address scan and its intersections collected. -/
def buildAddCorners (tri : List (Site × Site)) (voronoiEdges : List (Site × Site))
    (n : ℕ) (N : ℤ) : List Site :=
  (List.range n).foldl
    (fun ac i =>
      let iz : ℤ := (i : ℤ)
      let tgt := missingTarget N iz
      if edgeFound voronoiEdges iz tgt then ac
      else addIntersections tri (scanSite tri iz) (scanSite tri tgt) ac)
    []

/-- Sequential re-addressing of the corners shifted behind an inserted one
(the inner `for (addr3; ...)` loop of PolygonTool.cpp, lines 500-507, which
copies each displaced corner one slot later with its new address, appending
the last one). -/
def reAddr : List Site → ℤ → List Site
  | [], _ => []
  | c :: rest, a => (⟨c.mX, c.mY, a⟩ : Site) :: reAddr rest (a + 1)

/-- Splicing one collected intersection corner into `mCorners`
(PolygonTool.cpp, lines 486-513).  `cornerCount` is the number of corners
already spliced. -/
def spliceCorner (corners : List Site) (c : Site) (cornerCount : ℤ) : List Site :=
  let addr3 := c.mAddr + cornerCount
  if addr3 < (corners.length : ℤ) then
    corners.take addr3.toNat ++ [⟨c.mX, c.mY, addr3⟩] ++
      reAddr (corners.drop addr3.toNat) (addr3 + 1)
  else
    corners ++ [⟨c.mX, c.mY, addr3⟩]

/-- The full splice loop over `addCorners` (PolygonTool.cpp, lines 483-514). -/
def spliceAll (corners : List Site) (addCorners : List Site) : List Site :=
  (addCorners.foldl (fun (st : List Site × ℤ) c => (spliceCorner st.1 c st.2, st.2 + 1))
    (corners, 0)).1

/-- The mutable state of the `createMesh` edge-recovery loop. -/
structure CreateMeshState where
  corners : List Site
  triangles : List Triangle
  lastSweep : Option (List Site)
  edgesOK : Bool
  iterations : ℕ

/-- One iteration of the edge-recovery loop (the body of
`while (!edgesOK && it < 5)`, PolygonTool.cpp, lines 297-522).  `sweep`
abstracts `VoronoiGenerator::parse` together with `getTriangulation` and
`getTriangles` — the generator's implementation file is not part of this
snapshot — returning the Delaunay edge list and triangle list for the given
sites.  `countEdges` starts at the corner count and is decremented for every
qualifying triangulation edge; when it is nonzero, intersection corners are
collected and spliced in; the triangle list of the sweep is saved in either
case. -/
def createMeshIter (sweep : List Site → List (Site × Site) × List Triangle)
    (st : CreateMeshState) : CreateMeshState :=
  if ((st.corners.length : ℤ) -
        ((sweep st.corners).1.countP
          (fun s => decide (qualifies (st.corners.length : ℤ) s)) : ℤ)) ≠ 0 then
    { corners := spliceAll st.corners
        (buildAddCorners (sweep st.corners).1
          (collectPolygonEdges (sweep st.corners).1 (st.corners.length : ℤ))
          st.corners.length (st.corners.length : ℤ)),
      triangles := (sweep st.corners).2,
      lastSweep := some st.corners,
      edgesOK := false,
      iterations := st.iterations + 1 }
  else
    { corners := st.corners,
      triangles := (sweep st.corners).2,
      lastSweep := some st.corners,
      edgesOK := true,
      iterations := st.iterations + 1 }

/-- The edge-recovery loop with explicit fuel: `while (!edgesOK && it < 5)`. -/
def createMeshLoop (sweep : List Site → List (Site × Site) × List Triangle) :
    ℕ → CreateMeshState → CreateMeshState
  | 0, st => st
  | fuel + 1, st =>
    if st.edgesOK then st
    else createMeshLoop sweep fuel (createMeshIter sweep st)

/-- The observable outcome of `PolygonTool::createMesh` (PolygonTool.cpp,
lines 290-529): the final corner list, the triangle list handed back through
the out-parameter, the sites of the most recent sweep, the final `edgesOK`
flag, the number of loop iterations, and the number of warnings logged by
the single post-loop `spdlog::warn` call. -/
structure CreateMeshResult where
  corners : List Site
  triangles : List Triangle
  lastSweep : Option (List Site)
  edgesOK : Bool
  iterations : ℕ
  warnings : ℕ

/-- The entry state of the edge-recovery loop: `edgesOK = 0`, `it = 0`, the
out-parameter triangle vector still empty. -/
def createMeshInit (corners0 : List Site) : CreateMeshState :=
  { corners := corners0, triangles := [], lastSweep := none,
    edgesOK := false, iterations := 0 }

/-- `PolygonTool::createMesh` (PolygonTool.cpp, lines 290-529). -/
def createMesh (sweep : List Site → List (Site × Site) × List Triangle)
    (corners0 : List Site) : CreateMeshResult :=
  { corners := (createMeshLoop sweep 5 (createMeshInit corners0)).corners,
    triangles := (createMeshLoop sweep 5 (createMeshInit corners0)).triangles,
    lastSweep := (createMeshLoop sweep 5 (createMeshInit corners0)).lastSweep,
    edgesOK := (createMeshLoop sweep 5 (createMeshInit corners0)).edgesOK,
    iterations := (createMeshLoop sweep 5 (createMeshInit corners0)).iterations,
    warnings := if (createMeshLoop sweep 5 (createMeshInit corners0)).edgesOK then 0 else 1 }

/-- One logged `refineMesh` invocation of the outer refinement loop: the
`attempt` counter and running `pointCount` at the moment of the call, and the
number of sites the call inserted. -/
structure RefineCall where
  attempt : ℕ
  pointCount : ℕ
  inserted : ℕ

/-- The per-triangle state while the edge loop of one triangle runs. -/
structure EdgeLoopState where
  cf : List Site
  fine : Bool
  calls : List RefineCall

/-- One `refineMesh` call as issued by the edge loop (PolygonTool.cpp,
lines 1260-1270): the endpoint heights `h1`, `h2` are those computed by the
preceding `displayMesh` call, i.e. the composite height map at the two edge
endpoints. -/
def refineEdge (heightAt : ℚ → ℚ → ℚ) (heightDiff : ℚ) (e : Site × Site)
    (cf : List Site) (fine : Bool) : List Site × Bool :=
  refineMesh heightAt heightDiff e.1 e.2 (heightAt e.1.mX e.1.mY) (heightAt e.2.mX e.2.mY)
    cf fine

/-- One step of the edge loop (PolygonTool.cpp, lines 1260-1270):
`displayMesh` only records display vertices and is omitted; `refineMesh` runs
only under the guard
`(!refine) && (pointCount < mMaxPoints) && (attempt < mMaxAttempt)`. -/
def edgeStep (heightAt : ℚ → ℚ → ℚ) (heightDiff : ℚ)
    (maxAttempt maxPoints attempt pointCount : ℕ) (refine : Bool)
    (st : EdgeLoopState) (e : Site × Site) : EdgeLoopState :=
  if refine = false ∧ pointCount < maxPoints ∧ attempt < maxAttempt then
    { cf := (refineEdge heightAt heightDiff e st.cf st.fine).1,
      fine := (refineEdge heightAt heightDiff e st.cf st.fine).2,
      calls := st.calls ++
        [⟨attempt, pointCount,
          (refineEdge heightAt heightDiff e st.cf st.fine).1.length - st.cf.length⟩] }
  else st

/-- The edge loop over one triangle's sub-Delaunay edges; `refine`,
`pointCount` and `attempt` are fixed during the loop. -/
def processEdges (heightAt : ℚ → ℚ → ℚ) (heightDiff : ℚ)
    (maxAttempt maxPoints attempt pointCount : ℕ) (refine : Bool)
    (edges : List (Site × Site)) (st : EdgeLoopState) : EdgeLoopState :=
  edges.foldl (edgeStep heightAt heightDiff maxAttempt maxPoints attempt pointCount refine) st

/-- The external collaborators and settings of the refinement loop of
`PolygonTool::updateCalculation` (lines 1203-1299): the composite height map,
the `heightDiff` setting, the `maxAttempt` and `maxPoints` budgets, the
polygon corners used by `checkPoint`, the sub-triangulation of the local
Voronoi run (`voronoiRefine.getTriangulation()`, implementation not in this
snapshot), `checkSleekness` (PolygonTool.cpp lines 533-616, whose minimum
angle criteria involve `sin`/`cos` and planar lengths; it appends midpoints to
the given per-triangle list and reports whether too many points were added),
and the coarse triangle list from `createMesh`. -/
structure RefineParams where
  heightAt : ℚ → ℚ → ℚ
  heightDiff : ℚ
  maxAttempt : ℕ
  maxPoints : ℕ
  polyCorners : List Site
  sweepEdges : List Site → List (Site × Site)
  sleekF : List Site → List Site × Bool
  triangles : List Triangle

/-- The running state of one pass over the coarse triangles. -/
structure PassState where
  cornersFine : List (List Site)
  triangleCount : ℕ
  pointCount : ℕ
  fine : Bool
  calls : List RefineCall

/-- Processing of one coarse triangle inside a pass (PolygonTool.cpp,
lines 1230-1281): triangles whose centroid fails `checkPoint` are skipped;
on the first attempt the triangle's three corners seed `mCornersFine`;
`checkSleekness` may append midpoints and set `refine`; the local Delaunay of
the updated site list supplies the edges; after the edge loop the running
point count grows by the triangle's final site count.  The area/volume
accumulation (`calculateAreaAndVolume`) and the display bookkeeping do not
influence the loop control and are omitted here. -/
def processTriangle (P : RefineParams) (attempt : ℕ) (st : PassState) (t : Triangle) :
    PassState :=
  if checkPoint P.polyCorners ((t.1.mX + t.2.1.mX + t.2.2.mX) / 3)
      ((t.1.mY + t.2.1.mY + t.2.2.mY) / 3) then
    let cfAll := if attempt = 1 then
        st.cornersFine ++ [[⟨t.1.mX, t.1.mY, 0⟩, ⟨t.2.1.mX, t.2.1.mY, 1⟩,
          ⟨t.2.2.mX, t.2.2.mY, 2⟩]]
      else st.cornersFine
    let sleek := P.sleekF (cfAll.getD st.triangleCount [])
    let est := processEdges P.heightAt P.heightDiff P.maxAttempt P.maxPoints attempt
      st.pointCount sleek.2 (P.sweepEdges sleek.1) ⟨sleek.1, st.fine, st.calls⟩
    { cornersFine := cfAll.set st.triangleCount est.cf,
      triangleCount := st.triangleCount + 1,
      pointCount := st.pointCount + est.cf.length,
      fine := est.fine,
      calls := est.calls }
  else st

/-- One pass of the refinement loop body (PolygonTool.cpp, lines 1218-1281):
`attempt` has been incremented, `fine` reset to `1`, the counters reset to
`0`, then all coarse triangles are processed. -/
def passFold (P : RefineParams) (attempt : ℕ) (cornersFine : List (List Site))
    (calls : List RefineCall) : PassState :=
  P.triangles.foldl (processTriangle P attempt)
    { cornersFine := cornersFine, triangleCount := 0, pointCount := 0,
      fine := true, calls := calls }

/-- The loop-level state of the refinement loop. -/
structure RefineLoopState where
  cornersFine : List (List Site)
  fine : Bool
  attempt : ℕ
  pointCount : ℕ
  refineCalls : List RefineCall

/-- One full pass, with the `attempt++` of the loop head. -/
def runPass (P : RefineParams) (st : RefineLoopState) : RefineLoopState :=
  { cornersFine := (passFold P (st.attempt + 1) st.cornersFine st.refineCalls).cornersFine,
    fine := (passFold P (st.attempt + 1) st.cornersFine st.refineCalls).fine,
    attempt := st.attempt + 1,
    pointCount := (passFold P (st.attempt + 1) st.cornersFine st.refineCalls).pointCount,
    refineCalls := (passFold P (st.attempt + 1) st.cornersFine st.refineCalls).calls }

/-- The refinement loop
`while ((!fine) && (attempt < mMaxAttempt) && (pointCount < mMaxPoints))`
(PolygonTool.cpp, line 1217) with explicit fuel. -/
def refineLoop (P : RefineParams) : ℕ → RefineLoopState → RefineLoopState
  | 0, st => st
  | fuel + 1, st =>
    if st.fine = false ∧ st.attempt < P.maxAttempt ∧ st.pointCount < P.maxPoints then
      refineLoop P fuel (runPass P st)
    else st

/-- The refinement phase of `PolygonTool::updateCalculation` (lines
1203-1299): `fine = 0`, `attempt = 0`, and — `mCornersFine` having been
cleared — the initial point count is `0`.  `maxAttempt` passes of fuel
suffice because every pass increments `attempt` and the guard requires
`attempt < maxAttempt`. -/
def updateRefinement (P : RefineParams) : RefineLoopState :=
  refineLoop P P.maxAttempt
    { cornersFine := [], fine := false, attempt := 0, pointCount := 0, refineCalls := [] }

/-! ## The 3D pipeline of `PolygonTool::updateCalculation`

`glm::dvec3` values are modelled over `ℝ`; `glm::length` and
`glm::normalize` use `Real.sqrt`, so these definitions are noncomputable.
Division by zero yields `0` where the doubles would produce infinities; the
theorems below either exclude such inputs or are checked to coincide with
the IEEE outcome there. -/
/-- `glm::dvec3`. -/
structure Vec3 where
  x : ℝ
  y : ℝ
  z : ℝ

instance : Add Vec3 := ⟨fun a b => ⟨a.x + b.x, a.y + b.y, a.z + b.z⟩⟩

instance : Sub Vec3 := ⟨fun a b => ⟨a.x - b.x, a.y - b.y, a.z - b.z⟩⟩

instance : Neg Vec3 := ⟨fun a => ⟨-a.x, -a.y, -a.z⟩⟩

instance : SMul ℝ Vec3 := ⟨fun r a => ⟨r * a.x, r * a.y, r * a.z⟩⟩

instance : Zero Vec3 := ⟨⟨0, 0, 0⟩⟩

/-- `glm::dot`. -/
def dot3 (a b : Vec3) : ℝ := a.x * b.x + a.y * b.y + a.z * b.z

/-- `glm::cross`. -/
def cross3 (a b : Vec3) : Vec3 :=
  ⟨a.y * b.z - a.z * b.y, a.z * b.x - a.x * b.z, a.x * b.y - a.y * b.x⟩

/-- The squared Euclidean norm. -/
def normSq (a : Vec3) : ℝ := dot3 a a

/-- `glm::length`. -/
noncomputable def vnorm (a : Vec3) : ℝ := Real.sqrt (normSq a)

/-- `glm::normalize`: `v / |v|` (`0` at `v = 0`, where the doubles would give
NaN; every theorem using this either excludes that input or handles it). -/
noncomputable def vnormalize (a : Vec3) : Vec3 := (vnorm a)⁻¹ • a

/-- A planar site of the Voronoi plane with real coordinates (the same `Site`
record as in the planar model; real coordinates because they arise from the
3D projection). -/
structure SiteR where
  x : ℝ
  y : ℝ
  addr : ℤ

/-- Outcome of the early phase of `PolygonTool::updateCalculation`
(lines 1056-1195): the function returns before any further work for fewer
than 3 points, for an oversize polygon (displaying zeros and disabling the
mesh), or when a projected coordinate is NaN; otherwise it proceeds to
`createMesh` and the refinement loop with the projected corners. -/
inductive UpdateEarly where
  | tooFew
  | tooLarge
  | nanAbort
  | proceed (maxDist : ℝ) (corners : List SiteR)

/-- The observable effects of the early-return branches: which JavaScript
display calls were made, whether `mShowMesh` was assigned, whether the run
reaches `createMesh`, and whether any `spdlog` warning was emitted on the
way.  For the three returning constructors these are the whole call's
effects; for `proceed` they describe the phase up to the corner projection. -/
structure EarlyObs where
  areaSet : Option ℝ
  volumeSet : Option (ℝ × ℝ)
  showMesh : Option Bool
  meshBuilt : Bool
  warned : Bool

/-- Effects per branch, from PolygonTool.cpp lines 1056-1059 (`tooFew`:
plain `return`), 1097-1102 (`tooLarge`: `setArea(0)`, `setVolume(0, 0)`,
`mShowMesh = 0`, `return` — no warning call exists in this path), 1186-1187
(`nanAbort`: plain `return`). -/
def observeEarly : UpdateEarly → EarlyObs
  | .tooFew => ⟨none, none, none, false, false⟩
  | .tooLarge => ⟨some 0, some (0, 0), some false, false, false⟩
  | .nanAbort => ⟨none, none, none, false, false⟩
  | .proceed _ _ => ⟨none, none, none, true, false⟩

/-- The mean of the anchor positions (`averagePosition`, PolygonTool.cpp,
lines 1069-1071: each position is divided by the count before summing). -/
noncomputable def averagePosition (marks : List Vec3) : Vec3 :=
  marks.foldl (fun acc p => acc + ((1 : ℝ) / (marks.length : ℝ)) • p) 0

/-- The running-maximum loop over a real-valued function (the `maxDist` loop
of PolygonTool.cpp, lines 1088-1093). -/
noncomputable def foldMax (f : Vec3 → ℝ) (l : List Vec3) (acc : ℝ) : ℝ :=
  l.foldl (fun a p => if f p > a then f p else a) acc

/-- The largest distance from a mark to the average position. -/
noncomputable def maxCornerDist (marks : List Vec3) : ℝ :=
  foldMax (fun p => vnorm (averagePosition marks - p)) marks 0

/-- The `north` tangent vector (PolygonTool.cpp, lines 1113-1123): for
`normal.y ≠ 0` the vector `(-n.x, yNorth, -n.z)` with
`yNorth = (n.x² + n.z²)/n.y` is normalized, flipped to `(n.x, -yNorth, n.z)`
on the southern hemisphere; otherwise `north = (0, 1, 0)`. -/
noncomputable def northOf (normal : Vec3) : Vec3 :=
  if normal.y ≠ 0 then
    if (normal.x ^ 2 + normal.z ^ 2) / normal.y < 0 then
      vnormalize ⟨normal.x, -((normal.x ^ 2 + normal.z ^ 2) / normal.y), normal.z⟩
    else
      vnormalize ⟨-normal.x, (normal.x ^ 2 + normal.z ^ 2) / normal.y, -normal.z⟩
  else
    ⟨0, 1, 0⟩

open scoped Classical in
/-- The corner-projection loop (PolygonTool.cpp, lines 1169-1195):
consecutive duplicate positions are skipped (`lastPosition` starts value-
initialized); each kept position is projected onto the tangent plane with
`k = dot(normal, middle)/dot(normal, position)`, read in the plane basis and
divided by `maxDist`.  `isnan(x / maxDist)` for finite operands holds exactly
when both are zero, in which case the whole update returns. -/
noncomputable def projectLoop (maxDist : ℝ) (normal middle east north : Vec3) :
    List Vec3 → ℤ → Vec3 → Option (List SiteR)
  | [], _, _ => some []
  | p :: ps, addr, lastPos =>
    if p = lastPos then
      projectLoop maxDist normal middle east north ps addr lastPos
    else
      if (dot3 east ((dot3 normal middle / dot3 normal p) • p - middle) = 0 ∧ maxDist = 0) ∨
          (dot3 north ((dot3 normal middle / dot3 normal p) • p - middle) = 0 ∧ maxDist = 0) then
        none
      else
        match projectLoop maxDist normal middle east north ps (addr + 1) p with
        | none => none
        | some rest =>
          some (⟨dot3 east ((dot3 normal middle / dot3 normal p) • p - middle) / maxDist,
            dot3 north ((dot3 normal middle / dot3 normal p) • p - middle) / maxDist,
            addr⟩ :: rest)

/-- The early phase of `PolygonTool::updateCalculation` (lines 1056-1195).
The least-squares-plane section (lines 1127-1166) computes `mNormal2` and
`mMiddlePoint2` for the later volume integration and performs no early
return, so it does not appear among these observables.  `r` is `radii[0]`. -/
noncomputable def updateCalcEarly (marks : List Vec3) (r : ℝ) : UpdateEarly :=
  if marks.length < 3 then
    .tooFew
  else if maxCornerDist marks > r then
    .tooLarge
  else
    match projectLoop
      (1.2 * maxCornerDist marks * r / Real.sqrt (r ^ 2 - maxCornerDist marks ^ 2))
      (vnormalize (averagePosition marks))
      (r • vnormalize (averagePosition marks))
      (-(cross3 (vnormalize (averagePosition marks))
        (northOf (vnormalize (averagePosition marks)))))
      (northOf (vnormalize (averagePosition marks)))
      marks 0 0 with
    | none => .nanAbort
    | some corners =>
      .proceed (1.2 * maxCornerDist marks * r / Real.sqrt (r ^ 2 - maxCornerDist marks ^ 2))
        corners

/-! ## Area and signed-volume integration (`PolygonTool::calculateAreaAndVolume`) -/
/-- The lift of a Voronoi-plane site to the no-height surface point
(PolygonTool.cpp, lines 712-714):
`normalize(mMiddlePoint + mdist·x·east + mdist·y·north) · r`. -/
noncomputable def liftP (mdist : ℝ) (e n middle : Vec3) (r0 : ℝ) (s : SiteR) : Vec3 :=
  r0 • vnormalize (middle + (mdist * s.x) • e + (mdist * s.y) • n)

/-- Height of a surface point over the least-squares plane (PolygonTool.cpp,
lines 741-746): `h(p) - (dot(N2, M2)/dot(N2, p) - 1) · |M2|`.  `getH`
abstracts `getHeight(toLngLatHeight(·).xy())`, the external converter
composed with the body-height oracle. -/
noncomputable def heightOver (getH : Vec3 → ℝ) (normal2 middle2 : Vec3) (p : Vec3) : ℝ :=
  getH p - (dot3 normal2 middle2 / dot3 normal2 p - 1) * vnorm middle2

/-- The 32-sample plane-crossing search along one triangle edge
(PolygonTool.cpp, lines 792-816 and its two copies): the first sample whose
height-over-plane sign differs from the reference sign ends the loop with a
linear interpolation between the carry `(pMOld, hlMOld)` and the sample.
The carry is threaded, as in the source, across the three searches of one
triangle; the result is `(found, crossing point, final carry)`. -/
noncomputable def crossingSearch (hlRef : ℝ) (pOf : ℝ → Vec3) (hlOf : Vec3 → ℝ) :
    ℕ → ℕ → Vec3 → ℝ → Bool × Vec3 × Vec3 × ℝ
  | 0, _, pOld, hOld => (false, 0, pOld, hOld)
  | fuel + 1, i, pOld, hOld =>
    if bne2 (hlRef > 0) (hlOf (pOf ((i : ℝ) / 32)) > 0) = true then
      (true,
        pOld - (hOld / (hlOf (pOf ((i : ℝ) / 32)) - hOld)) • (pOf ((i : ℝ) / 32) - pOld),
        pOld, hOld)
    else
      crossingSearch hlRef pOf hlOf fuel (i + 1) (pOf ((i : ℝ) / 32)) (hlOf (pOf ((i : ℝ) / 32)))

/-- One triangle of `PolygonTool::calculateAreaAndVolume` (lines 704-914).
`toCart` abstracts `toCartesian(toLngLatHeight(·), r, r, h)`, the heighted
surface point of a no-height point (both converters are external utilities).
The locals `pl1, pl2, pl3` of lines 736-738 are computed but never used and
are omitted.  The accumulator is `(area, pvol, nvol)`. -/
noncomputable def calcAVStep (getH : Vec3 → ℝ) (toCart : Vec3 → ℝ → Vec3) (mdist : ℝ)
    (e n : Vec3) (r0 : ℝ) (middle normal2 middle2 : Vec3) (acc : ℝ × ℝ × ℝ)
    (t : SiteR × SiteR × SiteR) : ℝ × ℝ × ℝ :=
  let p1 := liftP mdist e n middle r0 t.1
  let p2 := liftP mdist e n middle r0 t.2.1
  let p3 := liftP mdist e n middle r0 t.2.2
  let r1 := toCart p1 (getH p1)
  let r2 := toCart p2 (getH p2)
  let r3 := toCart p3 (getH p3)
  let area := acc.1 + vnorm (cross3 (r2 - r1) (r3 - r1)) / 2
  let hl1 := heightOver getH normal2 middle2 p1
  let hl2 := heightOver getH normal2 middle2 p2
  let hl3 := heightOver getH normal2 middle2 p3
  if (hl1 > 0 ∧ hl2 > 0 ∧ hl3 > 0) ∨ (hl1 < 0 ∧ hl2 < 0 ∧ hl3 < 0) then
    let volume := (vnorm (cross3 (p2 - p1) (p3 - p1)) / 2) * ((hl1 + hl2 + hl3) / 3)
    if volume > 0 then (area, acc.2.1 + volume, acc.2.2)
    else (area, acc.2.1, acc.2.2 + volume)
  else
    let hlOf := heightOver getH normal2 middle2
    let s1 := if bne2 (hl1 > 0) (hl2 > 0) = true then
        crossingSearch hl1 (fun frac => r0 • vnormalize ((1 - frac) • p1 + frac • p2))
          hlOf 32 0 0 0
      else (false, 0, 0, 0)
    let s2 := if bne2 (hl1 > 0) (hl3 > 0) = true then
        crossingSearch hl1 (fun frac => r0 • vnormalize ((1 - frac) • p1 + frac • p3))
          hlOf 32 0 s1.2.2.1 s1.2.2.2
      else (false, 0, s1.2.2.1, s1.2.2.2)
    let s3 := if bne2 (hl2 > 0) (hl3 > 0) = true then
        crossingSearch hl2 (fun frac => r0 • vnormalize ((1 - frac) • p2 + frac • p3))
          hlOf 32 0 s2.2.2.1 s2.2.2.2
      else (false, 0, s2.2.2.1, s2.2.2.2)
    let pM1 := s1.2.1
    let pM2 := s2.2.1
    let pM3 := s3.2.1
    if s1.1 = true ∧ s2.1 = true ∧ s3.1 = false then
      let baseArea1 := vnorm (cross3 (pM1 - p1) (pM2 - p1)) / 2
      let baseArea2 := vnorm (cross3 (pM1 - p3) (pM2 - p3)) / 2 +
        vnorm (cross3 (pM1 - p2) (p3 - p2)) / 2
      if hl1 > 0 then
        (area, acc.2.1 + baseArea1 * hl1 / 3, acc.2.2 + baseArea2 * ((hl2 + hl3) / 4))
      else
        (area, acc.2.1 + baseArea2 * ((hl2 + hl3) / 4), acc.2.2 + baseArea1 * hl1 / 3)
    else if s1.1 = true ∧ s2.1 = false ∧ s3.1 = true then
      let baseArea1 := vnorm (cross3 (pM1 - p2) (pM3 - p2)) / 2
      let baseArea2 := vnorm (cross3 (pM1 - p1) (pM3 - p1)) / 2 +
        vnorm (cross3 (pM3 - p3) (p1 - p3)) / 2
      if hl2 > 0 then
        (area, acc.2.1 + baseArea1 * hl2 / 3, acc.2.2 + baseArea2 * ((hl1 + hl3) / 4))
      else
        (area, acc.2.1 + baseArea2 * ((hl1 + hl3) / 4), acc.2.2 + baseArea1 * hl2 / 3)
    else if s1.1 = false ∧ s2.1 = true ∧ s3.1 = true then
      let baseArea1 := vnorm (cross3 (pM3 - p3) (pM2 - p3)) / 2
      let baseArea2 := vnorm (cross3 (pM2 - p2) (pM3 - p2)) / 2 +
        vnorm (cross3 (pM2 - p1) (p2 - p1)) / 2
      if hl3 > 0 then
        (area, acc.2.1 + baseArea1 * hl3 / 3, acc.2.2 + baseArea2 * ((hl1 + hl2) / 4))
      else
        (area, acc.2.1 + baseArea2 * ((hl1 + hl2) / 4), acc.2.2 + baseArea1 * hl3 / 3)
    else
      let volume := (vnorm (cross3 (p2 - p1) (p3 - p1)) / 2) * ((hl1 + hl2 + hl3) / 3)
      if volume > 0 then (area, acc.2.1 + volume, acc.2.2)
      else (area, acc.2.1, acc.2.2 + volume)

/-- `PolygonTool::calculateAreaAndVolume` (lines 700-915): the per-triangle
step folded over the refined triangle list. -/
noncomputable def calculateAreaAndVolume (getH : Vec3 → ℝ) (toCart : Vec3 → ℝ → Vec3)
    (mdist : ℝ) (e n : Vec3) (r0 : ℝ) (middle normal2 middle2 : Vec3)
    (triangles : List (SiteR × SiteR × SiteR)) (acc : ℝ × ℝ × ℝ) : ℝ × ℝ × ℝ :=
  triangles.foldl (calcAVStep getH toCart mdist e n r0 middle normal2 middle2) acc

/-- The concrete triangle used by the C1 witness. -/
def c1exTriangle : SiteR × SiteR × SiteR := (⟨0, 0, 0⟩, ⟨1, 0, 1⟩, ⟨0, 1, 2⟩)

/-- The two toggle branches of `checkPoint` fire exactly on the shifted
crossing predicate: `px < xc ∨ |px - xc| < ε` is `px < xc + ε`. -/
theorem checkPointEdgeToggles_eq_crossesShifted (px py : ℚ) (ci cj : Site) :
    checkPointEdgeToggles px py ci cj = crossesShifted px py ci cj := by
  unfold checkPointEdgeToggles crossesShifted
  generalize (cj.mX - ci.mX) * (py - ci.mY) / (cj.mY - ci.mY) + ci.mX = xc
  by_cases hs : bne2 (ci.mY > py) (cj.mY > py) = true
  · by_cases h1 : px < xc
    · simp [hs, h1]
      linarith
    · have band : (|px - xc| < (1000⁻¹ : ℚ)) ↔ (px < xc + 1000⁻¹) := by
        constructor
        · intro h
          linarith [(abs_lt.mp h).2]
        · intro h
          exact abs_lt.mpr ⟨by linarith [not_lt.mp h1], by linarith⟩
      simp [hs, h1]
      exact band
  · simp only [Bool.not_eq_true] at hs
    simp [hs]

/-- Folding a parity toggle over a list computes the parity of the number of
elements satisfying the toggle predicate. -/
theorem foldl_toggle_eq_parity {α : Type} (p : α → Bool) (l : List α) (b : Bool) :
    l.foldl (fun r a => if p a then !r else r) b = xor b (decide (Odd (l.countP p))) := by
  induction l generalizing b with
  | nil => simp
  | cons a l ih =>
    rw [List.foldl_cons, ih, List.countP_cons]
    by_cases h : p a = true
    · rcases Nat.even_or_odd (l.countP p) with he | ho
      · have hno : ¬ Odd (l.countP p) := Nat.not_odd_iff_even.mpr he
        have h1 : Odd (l.countP p + 1) := Even.add_one he
        cases b <;> simp [h, hno, h1]
      · have h1 : ¬ Odd (l.countP p + 1) :=
          Nat.not_odd_iff_even.mpr (Odd.add_one ho)
        cases b <;> simp [h, ho, h1]
    · simp only [Bool.not_eq_true] at h
      simp [h]

/-- C9.  `checkPoint` returns `true` exactly when the number of polygon edges
that straddle the query point's `y`-coordinate and whose `x`-coordinate at
that `y`, increased by the absolute constant `0.001`, exceeds the query
point's `x`-coordinate is odd: it equals the classical half-line
crossing-parity test with each crossing threshold shifted by `+0.001` in the
`+x` direction. -/
theorem C9_checkPoint_eq_crossingParity (corners : List Site) (px py : ℚ) :
    checkPoint corners px py = crossingParity corners px py := by
  unfold checkPoint crossingParity
  rw [foldl_toggle_eq_parity]
  rw [Bool.false_xor]
  congr 1
  congr 1
  apply List.countP_congr
  intro i _
  simp only [checkPointEdgeToggles_eq_crossesShifted]

/-- C10.  Whenever any of the eight coordinates of the four sites is exactly
zero, `findIntersection` reports no intersection — the leading guard fires
regardless of whether the two segments properly intersect away from all four
endpoints. -/
theorem C10_findIntersection_zero_coord (s1 s2 s3 s4 : Site)
    (h : s1.mX = 0 ∨ s2.mX = 0 ∨ s3.mX = 0 ∨ s4.mX = 0 ∨
      s1.mY = 0 ∨ s2.mY = 0 ∨ s3.mY = 0 ∨ s4.mY = 0) :
    findIntersection s1 s2 s3 s4 = none := by
  unfold findIntersection
  rw [if_pos h]

/-- Witness for C10: the segment from `(0, 2)` to `(4, 2)` and the segment
from `(2, 0)` to `(2, 4)` properly intersect at `(2, 2)`, far from every
endpoint, yet the zero coordinates of the first and third site make
`findIntersection` report no intersection. -/
theorem C10_witness :
    findIntersection ⟨0, 2, 0⟩ ⟨4, 2, 1⟩ ⟨2, 0, 2⟩ ⟨2, 4, 3⟩ = none :=
  C10_findIntersection_zero_coord ⟨0, 2, 0⟩ ⟨4, 2, 1⟩ ⟨2, 0, 2⟩ ⟨2, 4, 3⟩ (Or.inl rfl)

/-- C7.  Inserting an arc for a new site `s` into a non-empty beach line emits
exactly one Delaunay edge `(A.site, s)`, where `A` is the arc located above
`s.x`; exactly one breakpoint is created and inserted into the index when
`s.y` equals the `y` of `A`'s focus, and exactly two are created and inserted
otherwise. -/
theorem C7_insertArcFor_edges_breakpoints (beach : List Site) (aIdx : ℕ) (site : Site)
    (h : beach ≠ []) :
    (insertArcFor beach aIdx site).edges = [(beach.getD aIdx ⟨0, 0, 0⟩, site)] ∧
    (insertArcFor beach aIdx site).bpCreated =
      (if site.mY = (beach.getD aIdx ⟨0, 0, 0⟩).mY then 1 else 2) ∧
    (insertArcFor beach aIdx site).bpInserted =
      (if site.mY = (beach.getD aIdx ⟨0, 0, 0⟩).mY then 1 else 2) := by
  match beach with
  | [] => exact absurd rfl h
  | b :: bs =>
    simp only [insertArcFor]
    split_ifs <;> exact ⟨rfl, rfl, rfl⟩

/-- Witness for C7: inserting site `(1, 1)` into the single-arc beach line
with focus `(0, 0)` (a general-case split) emits the single edge from the
broken arc's focus and creates and inserts two breakpoints. -/
theorem C7_witness :
    (insertArcFor [⟨0, 0, 0⟩] 0 ⟨1, 1, 1⟩).edges = [(⟨0, 0, 0⟩, ⟨1, 1, 1⟩)] ∧
    (insertArcFor [⟨0, 0, 0⟩] 0 ⟨1, 1, 1⟩).bpCreated =
      (if (⟨1, 1, 1⟩ : Site).mY = ((⟨0, 0, 0⟩ : Site)).mY then 1 else 2) ∧
    (insertArcFor [⟨0, 0, 0⟩] 0 ⟨1, 1, 1⟩).bpInserted =
      (if (⟨1, 1, 1⟩ : Site).mY = ((⟨0, 0, 0⟩ : Site)).mY then 1 else 2) :=
  C7_insertArcFor_edges_breakpoints [⟨0, 0, 0⟩] 0 ⟨1, 1, 1⟩ (List.cons_ne_nil _ _)

/-- The sites appended by an inner refinement loop are exactly intermediate
points whose mismatch check fired. -/
theorem refineStep_fold_spec (heightAt : ℚ → ℚ → ℚ) (heightDiff : ℚ)
    (e1 e2 : Site) (h1 h2 : ℚ) (j : ℕ) (L : List ℕ) (st : List Site × Bool) :
    ∃ t, (L.foldl (refineStep heightAt heightDiff e1 e2 h1 h2 j) st).1 = st.1 ++ t ∧
      ∀ s ∈ t, ∃ i ∈ L,
        s.mX = (interPt e1 e2 i j).1 ∧ s.mY = (interPt e1 e2 i j).2 ∧
        mismatch heightDiff (heightAt s.mX s.mY) (interCmp h1 h2 i j) := by
  induction L generalizing st with
  | nil => exact ⟨[], by simp, by simp⟩
  | cons i L ih =>
    rw [List.foldl_cons]
    by_cases hc : mismatch heightDiff
        (heightAt (interPt e1 e2 i j).1 (interPt e1 e2 i j).2) (interCmp h1 h2 i j)
    · rcases ih ((st.1 ++ [⟨(interPt e1 e2 i j).1, (interPt e1 e2 i j).2, st.1.length⟩], false))
        with ⟨t, ht, hprop⟩
      refine ⟨⟨(interPt e1 e2 i j).1, (interPt e1 e2 i j).2, st.1.length⟩ :: t, ?_, ?_⟩
      · rw [refineStep, if_pos hc] at *
        rw [ht]
        simp
      · intro s hsmem
        rcases List.mem_cons.mp hsmem with rfl | hst
        · exact ⟨i, List.mem_cons_self _ _, rfl, rfl, hc⟩
        · rcases hprop s hst with ⟨i', hi', hrest⟩
          exact ⟨i', List.mem_cons_of_mem _ hi', hrest⟩
    · rcases ih st with ⟨t, ht, hprop⟩
      refine ⟨t, ?_, ?_⟩
      · rw [refineStep, if_neg hc]
        exact ht
      · intro s hsmem
        rcases hprop s hsmem with ⟨i', hi', hrest⟩
        exact ⟨i', List.mem_cons_of_mem _ hi', hrest⟩

/-- The sites appended by the `j = 3, 4, 5` levels of `refineMesh` are exactly
intermediate points (for some level `j` and some `1 ≤ i < j`) whose mismatch
check fired. -/
theorem refineLevels_fold_spec (heightAt : ℚ → ℚ → ℚ) (heightDiff : ℚ)
    (e1 e2 : Site) (h1 h2 : ℚ) (J : List ℕ) (st : List Site × Bool) :
    ∃ t, (J.foldl
        (fun st j =>
          if st.2 then refineLevel heightAt heightDiff e1 e2 h1 h2 j st else st) st).1
        = st.1 ++ t ∧
      ∀ s ∈ t, ∃ j ∈ J, ∃ i ∈ List.range' 1 (j - 1),
        s.mX = (interPt e1 e2 i j).1 ∧ s.mY = (interPt e1 e2 i j).2 ∧
        mismatch heightDiff (heightAt s.mX s.mY) (interCmp h1 h2 i j) := by
  induction J generalizing st with
  | nil => exact ⟨[], by simp, by simp⟩
  | cons j J ih =>
    rw [List.foldl_cons]
    by_cases hf : st.2 = true
    · rcases refineStep_fold_spec heightAt heightDiff e1 e2 h1 h2 j (List.range' 1 (j - 1)) st
        with ⟨t1, ht1, hprop1⟩
      rcases ih (refineLevel heightAt heightDiff e1 e2 h1 h2 j st) with ⟨t2, ht2, hprop2⟩
      refine ⟨t1 ++ t2, ?_, ?_⟩
      · rw [if_pos hf, ht2, refineLevel, ht1, List.append_assoc]
      · intro s hsmem
        rcases List.mem_append.mp hsmem with hs1 | hs2
        · rcases hprop1 s hs1 with ⟨i, hi, hrest⟩
          exact ⟨j, List.mem_cons_self _ _, i, hi, hrest⟩
        · rcases hprop2 s hs2 with ⟨j', hj', hrest⟩
          exact ⟨j', List.mem_cons_of_mem _ hj', hrest⟩
    · rcases ih st with ⟨t, ht, hprop⟩
      refine ⟨t, ?_, ?_⟩
      · rw [if_neg hf]
        exact ht
      · intro s hsmem
        rcases hprop s hsmem with ⟨j', hj', hrest⟩
        exact ⟨j', List.mem_cons_of_mem _ hj', hrest⟩

/-- For positive operands the two-quotient check is the max/min ratio check. -/
theorem mismatch_iff_ratio (t a b : ℚ) (ha : 0 < a) (hb : 0 < b) :
    mismatch t a b ↔ max a b / min a b > t := by
  rcases le_total a b with hab | hba
  · rw [max_eq_right hab, min_eq_left hab]
    unfold mismatch
    constructor
    · rintro (h | h)
      · have h1 : a / b ≤ 1 := (div_le_one hb).mpr hab
        have h2 : (1 : ℚ) ≤ b / a := (one_le_div ha).mpr hab
        linarith
      · exact h
    · exact Or.inr
  · rw [max_eq_left hba, min_eq_right hba]
    unfold mismatch
    constructor
    · rintro (h | h)
      · exact h
      · have h1 : b / a ≤ 1 := (div_le_one ha).mpr hba
        have h2 : (1 : ℚ) ≤ a / b := (one_le_div hb).mpr hba
        linarith
    · exact Or.inl

/-- If an intermediate point at ratio `i : j - i` with `2 i ≠ j` coincides
with the edge midpoint, the edge is degenerate. -/
theorem interPt_mid_forces_eq (e1 e2 : Site) (i j : ℕ) (hj : 0 < j) (hij : 2 * i ≠ j)
    (hx : (interPt e1 e2 i j).1 = (e1.mX + e2.mX) / 2)
    (hy : (interPt e1 e2 i j).2 = (e1.mY + e2.mY) / 2) :
    e1.mX = e2.mX ∧ e1.mY = e2.mY := by
  unfold interPt at hx hy
  have hjq : (j : ℚ) ≠ 0 := Nat.cast_ne_zero.mpr hj.ne'
  have hijq : (2 * (i : ℚ) - (j : ℚ)) ≠ 0 := by
    intro h0
    apply hij
    have h2i : ((2 * i : ℕ) : ℚ) = (j : ℚ) := by push_cast; linarith
    exact_mod_cast h2i
  constructor
  · rw [div_eq_div_iff hjq (by norm_num : (2 : ℚ) ≠ 0)] at hx
    have key : (2 * (i : ℚ) - (j : ℚ)) * e1.mX = (2 * (i : ℚ) - (j : ℚ)) * e2.mX := by
      linear_combination hx
    exact mul_left_cancel₀ hijq key
  · rw [div_eq_div_iff hjq (by norm_num : (2 : ℚ) ≠ 0)] at hy
    have key : (2 * (i : ℚ) - (j : ℚ)) * e1.mY = (2 * (i : ℚ) - (j : ℚ)) * e2.mY := by
      linear_combination hy
    exact mul_left_cancel₀ hijq key

/-- Counterexample to C5 as stated: with negative heights (midpoint height
`-1`, endpoint heights `-2`) and `heightDiff = 1.002`, `refineMesh` inserts
the midpoint `(1, 0)` of the edge from `(0, 0)` to `(2, 0)` — the code checks
the two quotients `-1 / -2 = 0.5` and `-2 / -1 = 2` and the second exceeds the
threshold — although `max(-1, -2) / min(-1, -2) = 0.5` does not exceed the
threshold, so the claimed if-and-only-if condition is false here. -/
theorem C5_counterexample :
    (⟨1, 0, 0⟩ : Site) ∈
        (refineMesh (fun _ _ => -1) (1002 / 1000) ⟨0, 0, 0⟩ ⟨2, 0, 1⟩ (-2) (-2) [] true).1 ∧
      ¬ (max (-1 : ℚ) (((-2) + (-2)) / 2) / min (-1 : ℚ) (((-2) + (-2)) / 2) > 1002 / 1000) := by
  constructor
  · simp only [refineMesh]
    rw [if_pos]
    · simp only [List.nil_append, List.length_nil, List.mem_singleton]
      norm_num
    · unfold mismatch
      norm_num
  · have hmax : max (-1 : ℚ) (((-2) + (-2)) / 2) = -1 :=
      max_eq_left (by norm_num)
    have hmin : min (-1 : ℚ) (((-2) + (-2)) / 2) = -2 := by
      rw [min_eq_right (by norm_num : ((-2 : ℚ) + (-2)) / 2 ≤ -1)]
      norm_num
    rw [hmax, hmin]
    norm_num

/-- C5, amended with the hypotheses the counterexample forces: for a
non-degenerate edge whose midpoint height and interpolated endpoint height
are both positive, `refineMesh` inserts the edge midpoint into the
per-triangle site list if and only if
`max(h_mid, (h1+h2)/2) / min(h_mid, (h1+h2)/2) > heightDiff`. -/
theorem C5_refineMesh_midpoint_iff (heightAt : ℚ → ℚ → ℚ) (heightDiff : ℚ)
    (e1 e2 : Site) (h1 h2 : ℚ) (corners : List Site) (fine : Bool)
    (hne : ¬(e1.mX = e2.mX ∧ e1.mY = e2.mY))
    (hmid : 0 < heightAt ((e1.mX + e2.mX) / 2) ((e1.mY + e2.mY) / 2))
    (havg : 0 < (h1 + h2) / 2) :
    (∃ s ∈ (refineMesh heightAt heightDiff e1 e2 h1 h2 corners fine).1.drop corners.length,
        s.mX = (e1.mX + e2.mX) / 2 ∧ s.mY = (e1.mY + e2.mY) / 2) ↔
      max (heightAt ((e1.mX + e2.mX) / 2) ((e1.mY + e2.mY) / 2)) ((h1 + h2) / 2) /
          min (heightAt ((e1.mX + e2.mX) / 2) ((e1.mY + e2.mY) / 2)) ((h1 + h2) / 2) >
        heightDiff := by
  rw [← mismatch_iff_ratio heightDiff _ _ hmid havg]
  simp only [refineMesh]
  constructor
  · rintro ⟨s, hsmem, hsx, hsy⟩
    by_cases hc : mismatch heightDiff
        (heightAt ((e1.mX + e2.mX) / 2) ((e1.mY + e2.mY) / 2)) ((h1 + h2) / 2)
    · exact hc
    · exfalso
      rw [if_neg hc] at hsmem
      rcases refineLevels_fold_spec heightAt heightDiff e1 e2 h1 h2 [3, 4, 5] (corners, fine)
        with ⟨t, ht, hprop⟩
      rw [ht] at hsmem
      rw [List.drop_left] at hsmem
      rcases hprop s hsmem with ⟨j, hj, i, hi, hcx, hcy, hmis⟩
      have hxe : (interPt e1 e2 i j).1 = (e1.mX + e2.mX) / 2 := hcx.symm.trans hsx
      have hye : (interPt e1 e2 i j).2 = (e1.mY + e2.mY) / 2 := hcy.symm.trans hsy
      simp only [List.mem_cons, List.mem_singleton, List.not_mem_nil, or_false] at hj
      rcases hj with rfl | rfl | rfl
      · have hi2 : i = 1 ∨ i = 2 := by
          rw [show List.range' 1 (3 - 1) = [1, 2] from rfl] at hi
          simpa using hi
        rcases hi2 with rfl | rfl
        · exact hne (interPt_mid_forces_eq e1 e2 1 3 (by norm_num) (by norm_num) hxe hye)
        · exact hne (interPt_mid_forces_eq e1 e2 2 3 (by norm_num) (by norm_num) hxe hye)
      · have hi2 : i = 1 ∨ i = 2 ∨ i = 3 := by
          rw [show List.range' 1 (4 - 1) = [1, 2, 3] from rfl] at hi
          simpa using hi
        rcases hi2 with rfl | rfl | rfl
        · exact hne (interPt_mid_forces_eq e1 e2 1 4 (by norm_num) (by norm_num) hxe hye)
        · -- the quartering point at `i = 2` is the midpoint itself, and its
          -- check is exactly the midpoint check that just failed
          rw [hsx, hsy] at hmis
          have hcmp : interCmp h1 h2 2 4 = (h1 + h2) / 2 := by
            unfold interCmp
            push_cast
            ring
          rw [hcmp] at hmis
          exact hc hmis
        · exact hne (interPt_mid_forces_eq e1 e2 3 4 (by norm_num) (by norm_num) hxe hye)
      · have hi2 : i = 1 ∨ i = 2 ∨ i = 3 ∨ i = 4 := by
          rw [show List.range' 1 (5 - 1) = [1, 2, 3, 4] from rfl] at hi
          simpa using hi
        rcases hi2 with rfl | rfl | rfl | rfl
        · exact hne (interPt_mid_forces_eq e1 e2 1 5 (by norm_num) (by norm_num) hxe hye)
        · exact hne (interPt_mid_forces_eq e1 e2 2 5 (by norm_num) (by norm_num) hxe hye)
        · exact hne (interPt_mid_forces_eq e1 e2 3 5 (by norm_num) (by norm_num) hxe hye)
        · exact hne (interPt_mid_forces_eq e1 e2 4 5 (by norm_num) (by norm_num) hxe hye)
  · intro hc
    rw [if_pos hc]
    refine ⟨⟨(e1.mX + e2.mX) / 2, (e1.mY + e2.mY) / 2, corners.length⟩, ?_, rfl, rfl⟩
    rw [List.drop_left]
    exact List.mem_singleton.mpr rfl

/-- Witness for C5 (amended): a flat edge from `(0, 0)` to `(2, 0)` with
endpoint heights `1` and midpoint height `2` under threshold `1.002`. -/
theorem C5_witness :
    (∃ s ∈ (refineMesh (fun _ _ => 2) (1002 / 1000) ⟨0, 0, 0⟩ ⟨2, 0, 1⟩ 1 1
          [] true).1.drop ([] : List Site).length,
        s.mX = ((0 : ℚ) + 2) / 2 ∧ s.mY = ((0 : ℚ) + 0) / 2) ↔
      max ((fun (_ _ : ℚ) => (2 : ℚ)) (((0 : ℚ) + 2) / 2) (((0 : ℚ) + 0) / 2)) ((1 + 1) / 2) /
          min ((fun (_ _ : ℚ) => (2 : ℚ)) (((0 : ℚ) + 2) / 2) (((0 : ℚ) + 0) / 2)) ((1 + 1) / 2) >
        1002 / 1000 :=
  C5_refineMesh_midpoint_iff (fun _ _ => 2) (1002 / 1000) ⟨0, 0, 0⟩ ⟨2, 0, 1⟩ 1 1 [] true
    (by decide) (by norm_num) (by norm_num)

/-- The loop never runs more iterations than it has fuel. -/
theorem createMeshLoop_iterations_le
    (sweep : List Site → List (Site × Site) × List Triangle) (fuel : ℕ)
    (st : CreateMeshState) :
    (createMeshLoop sweep fuel st).iterations ≤ st.iterations + fuel := by
  induction fuel generalizing st with
  | zero => simp [createMeshLoop]
  | succ fuel ih =>
    rw [createMeshLoop]
    by_cases h : st.edgesOK = true
    · rw [if_pos h]
      omega
    · rw [if_neg h]
      have := ih (createMeshIter sweep st)
      have hiter : (createMeshIter sweep st).iterations = st.iterations + 1 := by
        unfold createMeshIter
        split_ifs <;> rfl
      omega

/-- After any iteration the triangle list is the one of the sweep over the
iteration's entry corners, which are recorded as the last sweep input. -/
theorem createMeshIter_triangles
    (sweep : List Site → List (Site × Site) × List Triangle) (st : CreateMeshState) :
    ∃ cs, (createMeshIter sweep st).lastSweep = some cs ∧
      (createMeshIter sweep st).triangles = (sweep cs).2 := by
  refine ⟨st.corners, ?_, ?_⟩ <;> (unfold createMeshIter; split_ifs <;> rfl)

/-- The loop preserves the "triangles come from the recorded last sweep"
invariant. -/
theorem createMeshLoop_triangles
    (sweep : List Site → List (Site × Site) × List Triangle) (fuel : ℕ)
    (st : CreateMeshState)
    (h : ∃ cs, st.lastSweep = some cs ∧ st.triangles = (sweep cs).2) :
    ∃ cs, (createMeshLoop sweep fuel st).lastSweep = some cs ∧
      (createMeshLoop sweep fuel st).triangles = (sweep cs).2 := by
  induction fuel generalizing st with
  | zero => exact h
  | succ fuel ih =>
    rw [createMeshLoop]
    by_cases he : st.edgesOK = true
    · rw [if_pos he]
      exact h
    · rw [if_neg he]
      exact ih _ (createMeshIter_triangles sweep st)

/-- C3.  The edge-recovery loop of `createMesh` runs at most 5 triangulation
iterations; if after the loop the recovery bookkeeping still reports a
missing polygon edge (`edgesOK` false, i.e. the final sweep's qualifying-edge
count did not reach the corner count), exactly one warning is logged and the
triangle list of the most recent sweep is kept as the best-effort result;
when all edges were recovered, no warning is logged. -/
theorem C3_createMesh_bound_warning
    (sweep : List Site → List (Site × Site) × List Triangle) (corners0 : List Site) :
    (createMesh sweep corners0).iterations ≤ 5 ∧
    ((createMesh sweep corners0).edgesOK = false →
      (createMesh sweep corners0).warnings = 1 ∧
      ∃ cs, (createMesh sweep corners0).lastSweep = some cs ∧
        (createMesh sweep corners0).triangles = (sweep cs).2) ∧
    ((createMesh sweep corners0).edgesOK = true →
      (createMesh sweep corners0).warnings = 0) := by
  refine ⟨?_, ?_, ?_⟩
  · have h := createMeshLoop_iterations_le sweep 5 (createMeshInit corners0)
    simpa [createMesh, createMeshInit] using h
  · intro hok
    have hok' : (createMeshLoop sweep 5 (createMeshInit corners0)).edgesOK = false := hok
    refine ⟨?_, ?_⟩
    · show (if (createMeshLoop sweep 5 (createMeshInit corners0)).edgesOK = true
          then 0 else 1) = 1
      rw [hok']
      simp
    · have hrun : createMeshLoop sweep 5 (createMeshInit corners0) =
          createMeshLoop sweep 4 (createMeshIter sweep (createMeshInit corners0)) := rfl
      show ∃ cs, (createMeshLoop sweep 5 (createMeshInit corners0)).lastSweep = some cs ∧
        (createMeshLoop sweep 5 (createMeshInit corners0)).triangles = (sweep cs).2
      rw [hrun]
      exact createMeshLoop_triangles sweep 4 _
        (createMeshIter_triangles sweep (createMeshInit corners0))
  · intro hok
    have hok' : (createMeshLoop sweep 5 (createMeshInit corners0)).edgesOK = true := hok
    show (if (createMeshLoop sweep 5 (createMeshInit corners0)).edgesOK = true
        then 0 else 1) = 0
    rw [hok']
    simp

/-- Witness for C3: the trivial sweep that returns no edges and no triangles
on the empty corner list — the loop stops after one successful iteration and
no warning is logged. -/
theorem C3_witness :
    (createMesh (fun _ => ([], [])) []).iterations ≤ 5 ∧
    ((createMesh (fun _ => ([], [])) []).edgesOK = false →
      (createMesh (fun _ => ([], [])) []).warnings = 1 ∧
      ∃ cs, (createMesh (fun _ => ([], [])) []).lastSweep = some cs ∧
        (createMesh (fun _ => ([], [])) []).triangles = ((fun (_ : List Site) =>
          (([] : List (Site × Site)), ([] : List Triangle))) cs).2) ∧
    ((createMesh (fun _ => ([], [])) []).edgesOK = true →
      (createMesh (fun _ => ([], [])) []).warnings = 0) :=
  C3_createMesh_bound_warning (fun _ => ([], [])) []

/-! ## The outer refinement loop of `PolygonTool::updateCalculation` -/
/-- The inner refinement loops only ever append to the site list. -/
theorem refineMesh_append (heightAt : ℚ → ℚ → ℚ) (heightDiff : ℚ) (e1 e2 : Site)
    (h1 h2 : ℚ) (corners : List Site) (fine : Bool) :
    ∃ t, (refineMesh heightAt heightDiff e1 e2 h1 h2 corners fine).1 = corners ++ t := by
  simp only [refineMesh]
  by_cases hc : mismatch heightDiff
      (heightAt ((e1.mX + e2.mX) / 2) ((e1.mY + e2.mY) / 2)) ((h1 + h2) / 2)
  · rw [if_pos hc]
    exact ⟨_, rfl⟩
  · rw [if_neg hc]
    rcases refineLevels_fold_spec heightAt heightDiff e1 e2 h1 h2 [3, 4, 5] (corners, fine)
      with ⟨t, ht, -⟩
    exact ⟨t, ht⟩

/-- The `fine` flag survives an inner refinement loop exactly when it was set
on entry and the loop appended nothing. -/
theorem refineStep_fold_fine (heightAt : ℚ → ℚ → ℚ) (heightDiff : ℚ)
    (e1 e2 : Site) (h1 h2 : ℚ) (j : ℕ) (L : List ℕ) (st : List Site × Bool) :
    ((L.foldl (refineStep heightAt heightDiff e1 e2 h1 h2 j) st).2 = true ↔
      st.2 = true ∧
        (L.foldl (refineStep heightAt heightDiff e1 e2 h1 h2 j) st).1.length = st.1.length) := by
  induction L generalizing st with
  | nil => simp
  | cons i L ih =>
    rw [List.foldl_cons]
    by_cases hc : mismatch heightDiff
        (heightAt (interPt e1 e2 i j).1 (interPt e1 e2 i j).2) (interCmp h1 h2 i j)
    · have hstep : refineStep heightAt heightDiff e1 e2 h1 h2 j st i =
          (st.1 ++ [⟨(interPt e1 e2 i j).1, (interPt e1 e2 i j).2, st.1.length⟩], false) := by
        rw [refineStep, if_pos hc]
      rw [hstep]
      rcases refineStep_fold_spec heightAt heightDiff e1 e2 h1 h2 j L
        (st.1 ++ [⟨(interPt e1 e2 i j).1, (interPt e1 e2 i j).2, st.1.length⟩], false)
        with ⟨t, ht, -⟩
      constructor
      · intro h2t
        rcases (ih _).mp h2t with ⟨hfalse, -⟩
        exact absurd hfalse (by simp)
      · rintro ⟨-, hlen⟩
        exfalso
        rw [ht] at hlen
        simp [List.length_append] at hlen
    · have hstep : refineStep heightAt heightDiff e1 e2 h1 h2 j st i = st := by
        rw [refineStep, if_neg hc]
      rw [hstep]
      exact ih st

/-- The `fine` flag survives the guarded `j = 3, 4, 5` levels exactly when it
was set on entry and they appended nothing. -/
theorem refineLevels_fold_fine (heightAt : ℚ → ℚ → ℚ) (heightDiff : ℚ)
    (e1 e2 : Site) (h1 h2 : ℚ) (J : List ℕ) (st : List Site × Bool) :
    ((J.foldl
        (fun st j =>
          if st.2 then refineLevel heightAt heightDiff e1 e2 h1 h2 j st else st) st).2 = true ↔
      st.2 = true ∧
        (J.foldl
          (fun st j =>
            if st.2 then refineLevel heightAt heightDiff e1 e2 h1 h2 j st else st) st).1.length
          = st.1.length) := by
  induction J generalizing st with
  | nil => simp
  | cons j J ih =>
    rw [List.foldl_cons]
    by_cases hf : st.2 = true
    · rw [if_pos hf]
      have hlv : (refineLevel heightAt heightDiff e1 e2 h1 h2 j st).2 = true ↔
          st.2 = true ∧
            (refineLevel heightAt heightDiff e1 e2 h1 h2 j st).1.length = st.1.length :=
        refineStep_fold_fine heightAt heightDiff e1 e2 h1 h2 j (List.range' 1 (j - 1)) st
      have hlen1 : st.1.length ≤ (refineLevel heightAt heightDiff e1 e2 h1 h2 j st).1.length := by
        rcases refineStep_fold_spec heightAt heightDiff e1 e2 h1 h2 j (List.range' 1 (j - 1)) st
          with ⟨t1, ht1, -⟩
        rw [show (refineLevel heightAt heightDiff e1 e2 h1 h2 j st).1 = st.1 ++ t1 from ht1]
        simp
      rcases refineLevels_fold_spec heightAt heightDiff e1 e2 h1 h2 J
        (refineLevel heightAt heightDiff e1 e2 h1 h2 j st) with ⟨t2, ht2, -⟩
      have hlen2 :
          (J.foldl
            (fun st j =>
              if st.2 then refineLevel heightAt heightDiff e1 e2 h1 h2 j st else st)
            (refineLevel heightAt heightDiff e1 e2 h1 h2 j st)).1.length =
            (refineLevel heightAt heightDiff e1 e2 h1 h2 j st).1.length + t2.length := by
        rw [ht2, List.length_append]
      rw [ih (refineLevel heightAt heightDiff e1 e2 h1 h2 j st), hlv]
      constructor
      · rintro ⟨⟨h2st, hla⟩, hlb⟩
        exact ⟨h2st, by omega⟩
      · rintro ⟨h2st, hl⟩
        exact ⟨⟨h2st, by omega⟩, by omega⟩
    · rw [if_neg hf]
      exact ih st

/-- The `fine` output of `refineMesh` is set exactly when the input flag was
set and the call inserted nothing. -/
theorem refineMesh_fine_iff (heightAt : ℚ → ℚ → ℚ) (heightDiff : ℚ) (e1 e2 : Site)
    (h1 h2 : ℚ) (corners : List Site) (fine : Bool) :
    ((refineMesh heightAt heightDiff e1 e2 h1 h2 corners fine).2 = true ↔
      (fine = true ∧
        (refineMesh heightAt heightDiff e1 e2 h1 h2 corners fine).1.length = corners.length)) := by
  simp only [refineMesh]
  by_cases hc : mismatch heightDiff
      (heightAt ((e1.mX + e2.mX) / 2) ((e1.mY + e2.mY) / 2)) ((h1 + h2) / 2)
  · rw [if_pos hc]
    simp
  · rw [if_neg hc]
    exact refineLevels_fold_fine heightAt heightDiff e1 e2 h1 h2 [3, 4, 5] (corners, fine)

/-- The `attempt` counter never exceeds `maxAttempt`. -/
theorem refineLoop_attempt_le (P : RefineParams) (fuel : ℕ) (st : RefineLoopState)
    (h : st.attempt ≤ P.maxAttempt) :
    (refineLoop P fuel st).attempt ≤ P.maxAttempt := by
  induction fuel generalizing st with
  | zero => exact h
  | succ fuel ih =>
    rw [refineLoop]
    by_cases hg : st.fine = false ∧ st.attempt < P.maxAttempt ∧ st.pointCount < P.maxPoints
    · rw [if_pos hg]
      exact ih (runPass P st) (Nat.succ_le_of_lt hg.2.1)
    · rw [if_neg hg]
      exact h

/-- The edge loop only logs calls made under the budget guard. -/
theorem processEdges_calls (heightAt : ℚ → ℚ → ℚ) (heightDiff : ℚ)
    (maxAttempt maxPoints attempt pointCount : ℕ) (refine : Bool)
    (edges : List (Site × Site)) (st : EdgeLoopState)
    (h : ∀ c ∈ st.calls, c.pointCount < maxPoints ∧ c.attempt < maxAttempt) :
    ∀ c ∈ (processEdges heightAt heightDiff maxAttempt maxPoints attempt pointCount refine
      edges st).calls, c.pointCount < maxPoints ∧ c.attempt < maxAttempt := by
  induction edges generalizing st with
  | nil => exact h
  | cons e edges ih =>
    have hstep : processEdges heightAt heightDiff maxAttempt maxPoints attempt pointCount
        refine (e :: edges) st =
        processEdges heightAt heightDiff maxAttempt maxPoints attempt pointCount refine edges
          (edgeStep heightAt heightDiff maxAttempt maxPoints attempt pointCount refine st e) :=
      rfl
    rw [hstep]
    apply ih
    intro c hc
    by_cases hg : refine = false ∧ pointCount < maxPoints ∧ attempt < maxAttempt
    · rw [edgeStep, if_pos hg] at hc
      rcases List.mem_append.mp hc with hold | hnew
      · exact h c hold
      · rcases List.mem_singleton.mp hnew with rfl
        exact ⟨hg.2.1, hg.2.2⟩
    · rw [edgeStep, if_neg hg] at hc
      exact h c hc

/-- Triangle processing preserves the call-budget invariant. -/
theorem processTriangle_calls (P : RefineParams) (attempt : ℕ) (st : PassState) (t : Triangle)
    (h : ∀ c ∈ st.calls, c.pointCount < P.maxPoints ∧ c.attempt < P.maxAttempt) :
    ∀ c ∈ (processTriangle P attempt st t).calls,
      c.pointCount < P.maxPoints ∧ c.attempt < P.maxAttempt := by
  simp only [processTriangle]
  by_cases hcp : checkPoint P.polyCorners ((t.1.mX + t.2.1.mX + t.2.2.mX) / 3)
      ((t.1.mY + t.2.1.mY + t.2.2.mY) / 3) = true
  · rw [if_pos hcp]
    exact processEdges_calls _ _ _ _ _ _ _ _ _ h
  · rw [if_neg hcp]
    exact h

/-- A full pass preserves the call-budget invariant. -/
theorem passTriangles_calls (P : RefineParams) (attempt : ℕ) (ts : List Triangle)
    (ps : PassState)
    (h : ∀ c ∈ ps.calls, c.pointCount < P.maxPoints ∧ c.attempt < P.maxAttempt) :
    ∀ c ∈ (ts.foldl (processTriangle P attempt) ps).calls,
      c.pointCount < P.maxPoints ∧ c.attempt < P.maxAttempt := by
  induction ts generalizing ps with
  | nil => exact h
  | cons t ts ih =>
    rw [List.foldl_cons]
    exact ih _ (processTriangle_calls P attempt ps t h)

/-- The loop preserves the call-budget invariant. -/
theorem refineLoop_calls (P : RefineParams) (fuel : ℕ) (st : RefineLoopState)
    (h : ∀ c ∈ st.refineCalls, c.pointCount < P.maxPoints ∧ c.attempt < P.maxAttempt) :
    ∀ c ∈ (refineLoop P fuel st).refineCalls,
      c.pointCount < P.maxPoints ∧ c.attempt < P.maxAttempt := by
  induction fuel generalizing st with
  | zero => exact h
  | succ fuel ih =>
    rw [refineLoop]
    by_cases hg : st.fine = false ∧ st.attempt < P.maxAttempt ∧ st.pointCount < P.maxPoints
    · rw [if_pos hg]
      apply ih
      exact passTriangles_calls P (st.attempt + 1) P.triangles _ h
    · rw [if_neg hg]
      exact h

/-- The loop stops at once when the pass flag is set or the point budget is
reached. -/
theorem refineLoop_exit (P : RefineParams) (fuel : ℕ) (st : RefineLoopState)
    (h : st.fine = true ∨ P.maxPoints ≤ st.pointCount) :
    refineLoop P fuel st = st := by
  cases fuel with
  | zero => rfl
  | succ fuel =>
    have hng : ¬(st.fine = false ∧ st.attempt < P.maxAttempt ∧
        st.pointCount < P.maxPoints) := by
      rintro ⟨hf, -, hp⟩
      rcases h with h | h
      · rw [h] at hf
        cases hf
      · omega
    rw [refineLoop, if_neg hng]

/-- The calls logged by an edge loop form a suffix, and if none of them
inserted a site, the `fine` flag is unchanged. -/
theorem processEdges_spec (heightAt : ℚ → ℚ → ℚ) (heightDiff : ℚ)
    (maxAttempt maxPoints attempt pointCount : ℕ) (refine : Bool)
    (edges : List (Site × Site)) (st : EdgeLoopState) :
    ∃ t, (processEdges heightAt heightDiff maxAttempt maxPoints attempt pointCount refine
        edges st).calls = st.calls ++ t ∧
      ((∀ c ∈ t, c.inserted = 0) →
        (processEdges heightAt heightDiff maxAttempt maxPoints attempt pointCount refine
          edges st).fine = st.fine) := by
  induction edges generalizing st with
  | nil => exact ⟨[], by simp [processEdges], fun _ => rfl⟩
  | cons e edges ih =>
    have hstep : processEdges heightAt heightDiff maxAttempt maxPoints attempt pointCount
        refine (e :: edges) st =
        processEdges heightAt heightDiff maxAttempt maxPoints attempt pointCount refine edges
          (edgeStep heightAt heightDiff maxAttempt maxPoints attempt pointCount refine st e) :=
      rfl
    by_cases hg : refine = false ∧ pointCount < maxPoints ∧ attempt < maxAttempt
    · have hsv : edgeStep heightAt heightDiff maxAttempt maxPoints attempt pointCount refine
          st e =
          { cf := (refineEdge heightAt heightDiff e st.cf st.fine).1,
            fine := (refineEdge heightAt heightDiff e st.cf st.fine).2,
            calls := st.calls ++
              [⟨attempt, pointCount,
                (refineEdge heightAt heightDiff e st.cf st.fine).1.length - st.cf.length⟩] } := by
        rw [edgeStep, if_pos hg]
      rcases ih (edgeStep heightAt heightDiff maxAttempt maxPoints attempt pointCount refine
        st e) with ⟨t, ht, hfin⟩
      refine ⟨⟨attempt, pointCount,
        (refineEdge heightAt heightDiff e st.cf st.fine).1.length - st.cf.length⟩ :: t, ?_, ?_⟩
      · rw [hstep, ht, hsv]
        simp
      · intro hz
        have hz0 : (refineEdge heightAt heightDiff e st.cf st.fine).1.length - st.cf.length
            = 0 := hz _ (List.mem_cons_self _ _)
        have hlen : (refineEdge heightAt heightDiff e st.cf st.fine).1.length
            = st.cf.length := by
          rcases refineMesh_append heightAt heightDiff e.1 e.2 (heightAt e.1.mX e.1.mY)
            (heightAt e.2.mX e.2.mY) st.cf st.fine with ⟨u, hu⟩
          have hu2 : (refineEdge heightAt heightDiff e st.cf st.fine).1 = st.cf ++ u := hu
          rw [hu2] at hz0 ⊢
          simp only [List.length_append] at hz0 ⊢
          omega
        have hfeq : (refineEdge heightAt heightDiff e st.cf st.fine).2 = st.fine := by
          have hiff2 : (refineEdge heightAt heightDiff e st.cf st.fine).2 = true ↔
              st.fine = true ∧
                (refineEdge heightAt heightDiff e st.cf st.fine).1.length = st.cf.length :=
            refineMesh_fine_iff heightAt heightDiff e.1 e.2 (heightAt e.1.mX e.1.mY)
              (heightAt e.2.mX e.2.mY) st.cf st.fine
          rw [hlen] at hiff2
          simp only [and_true] at hiff2
          exact Bool.eq_iff_iff.mpr hiff2
        rw [hstep, hfin (fun c hc => hz c (List.mem_cons_of_mem _ hc)), hsv, hfeq]
    · have hsv : edgeStep heightAt heightDiff maxAttempt maxPoints attempt pointCount refine
          st e = st := by
        rw [edgeStep, if_neg hg]
      rw [hstep, hsv]
      exact ih st

/-- Triangle processing logs a suffix of calls; if none inserted a site, the
`fine` flag is unchanged. -/
theorem processTriangle_spec (P : RefineParams) (attempt : ℕ) (st : PassState) (t : Triangle) :
    ∃ u, (processTriangle P attempt st t).calls = st.calls ++ u ∧
      ((∀ c ∈ u, c.inserted = 0) → (processTriangle P attempt st t).fine = st.fine) := by
  simp only [processTriangle]
  by_cases hcp : checkPoint P.polyCorners ((t.1.mX + t.2.1.mX + t.2.2.mX) / 3)
      ((t.1.mY + t.2.1.mY + t.2.2.mY) / 3) = true
  · rw [if_pos hcp]
    rcases processEdges_spec P.heightAt P.heightDiff P.maxAttempt P.maxPoints attempt
      st.pointCount
      (P.sleekF (((if attempt = 1 then
          st.cornersFine ++ [[⟨t.1.mX, t.1.mY, 0⟩, ⟨t.2.1.mX, t.2.1.mY, 1⟩,
            ⟨t.2.2.mX, t.2.2.mY, 2⟩]]
        else st.cornersFine)).getD st.triangleCount [])).2
      (P.sweepEdges (P.sleekF (((if attempt = 1 then
          st.cornersFine ++ [[⟨t.1.mX, t.1.mY, 0⟩, ⟨t.2.1.mX, t.2.1.mY, 1⟩,
            ⟨t.2.2.mX, t.2.2.mY, 2⟩]]
        else st.cornersFine)).getD st.triangleCount [])).1)
      ⟨(P.sleekF (((if attempt = 1 then
          st.cornersFine ++ [[⟨t.1.mX, t.1.mY, 0⟩, ⟨t.2.1.mX, t.2.1.mY, 1⟩,
            ⟨t.2.2.mX, t.2.2.mY, 2⟩]]
        else st.cornersFine)).getD st.triangleCount [])).1, st.fine, st.calls⟩
      with ⟨u, hu, hf⟩
    exact ⟨u, hu, hf⟩
  · rw [if_neg hcp]
    exact ⟨[], by simp, fun _ => rfl⟩

/-- A pass logs a suffix of calls; if none inserted a site, the pass-final
`fine` flag equals the pass-initial one. -/
theorem passTriangles_spec (P : RefineParams) (attempt : ℕ) (ts : List Triangle)
    (ps : PassState) :
    ∃ u, (ts.foldl (processTriangle P attempt) ps).calls = ps.calls ++ u ∧
      ((∀ c ∈ u, c.inserted = 0) →
        (ts.foldl (processTriangle P attempt) ps).fine = ps.fine) := by
  induction ts generalizing ps with
  | nil => exact ⟨[], by simp, fun _ => rfl⟩
  | cons t ts ih =>
    rcases processTriangle_spec P attempt ps t with ⟨u1, hu1, hf1⟩
    rcases ih (processTriangle P attempt ps t) with ⟨u2, hu2, hf2⟩
    refine ⟨u1 ++ u2, ?_, ?_⟩
    · rw [List.foldl_cons, hu2, hu1, List.append_assoc]
    · intro hz
      rw [List.foldl_cons, hf2 (fun c hc => hz c (List.mem_append.mpr (Or.inr hc))),
        hf1 (fun c hc => hz c (List.mem_append.mpr (Or.inl hc)))]

/-- If a pass inserted no site through `refineMesh`, its final `fine` flag is
set (the flag is reset to `1` at the pass head and only `refineMesh`
insertions clear it). -/
theorem runPass_no_insert_fine (P : RefineParams) (st : RefineLoopState)
    (h : ∀ c ∈ (runPass P st).refineCalls.drop st.refineCalls.length, c.inserted = 0) :
    (runPass P st).fine = true := by
  rcases passTriangles_spec P (st.attempt + 1) P.triangles
      ⟨st.cornersFine, 0, 0, true, st.refineCalls⟩ with ⟨u, hu, hf⟩
  have hdrop : (runPass P st).refineCalls.drop st.refineCalls.length = u := by
    show ((P.triangles.foldl (processTriangle P (st.attempt + 1))
      ⟨st.cornersFine, 0, 0, true, st.refineCalls⟩).calls).drop st.refineCalls.length = u
    rw [hu]
    exact List.drop_left _ _
  rw [hdrop] at h
  show (P.triangles.foldl (processTriangle P (st.attempt + 1))
    ⟨st.cornersFine, 0, 0, true, st.refineCalls⟩).fine = true
  exact hf h

/-- C6.  The outer refinement loop of `updateCalculation` performs at most
`maxAttempt` passes; every `refineMesh` invocation happens with the running
point count below `maxPoints` and before the final attempt; and as soon as a
pass inserts no new point (all its `refineMesh` calls inserted nothing, so
`fine` stays set) or ends with the accumulated point count at or above
`maxPoints`, the loop runs no further pass. -/
theorem C6_refineLoop_budget (P : RefineParams) :
    (updateRefinement P).attempt ≤ P.maxAttempt ∧
    (∀ c ∈ (updateRefinement P).refineCalls,
      c.pointCount < P.maxPoints ∧ c.attempt < P.maxAttempt) ∧
    (∀ st : RefineLoopState,
      ((∀ c ∈ (runPass P st).refineCalls.drop st.refineCalls.length, c.inserted = 0) ∨
        P.maxPoints ≤ (runPass P st).pointCount) →
      ∀ fuel, refineLoop P fuel (runPass P st) = runPass P st) := by
  refine ⟨?_, ?_, ?_⟩
  · exact refineLoop_attempt_le P P.maxAttempt _ (Nat.zero_le _)
  · refine refineLoop_calls P P.maxAttempt _ ?_
    intro c hc
    cases hc
  · intro st h fuel
    rcases h with h | h
    · exact refineLoop_exit P fuel _ (Or.inl (runPass_no_insert_fine P st h))
    · exact refineLoop_exit P fuel _ (Or.inr h)

theorem normSq_nonneg (a : Vec3) : 0 ≤ normSq a := by
  unfold normSq dot3
  nlinarith [sq_nonneg a.x, sq_nonneg a.y, sq_nonneg a.z]

theorem vnorm_nonneg (a : Vec3) : 0 ≤ vnorm a := Real.sqrt_nonneg _

theorem vnorm_sq (a : Vec3) : vnorm a ^ 2 = normSq a := by
  unfold vnorm
  rw [sq]
  exact Real.mul_self_sqrt (normSq_nonneg a)

theorem normSq_eq_zero_iff (a : Vec3) : normSq a = 0 ↔ a = ⟨0, 0, 0⟩ := by
  unfold normSq dot3
  constructor
  · intro h
    have hx : a.x = 0 := by nlinarith [sq_nonneg a.x, sq_nonneg a.y, sq_nonneg a.z]
    have hy : a.y = 0 := by nlinarith [sq_nonneg a.x, sq_nonneg a.y, sq_nonneg a.z]
    have hz : a.z = 0 := by nlinarith [sq_nonneg a.x, sq_nonneg a.y, sq_nonneg a.z]
    cases a
    simp_all
  · rintro rfl
    simp

/-- Cauchy-Schwarz for the 3D dot product, via the Lagrange identity. -/
theorem dot3_sq_le (a b : Vec3) : dot3 a b ^ 2 ≤ normSq a * normSq b := by
  unfold normSq dot3
  nlinarith [sq_nonneg (a.y * b.z - a.z * b.y), sq_nonneg (a.z * b.x - a.x * b.z),
    sq_nonneg (a.x * b.y - a.y * b.x)]

theorem normSq_smul (r : ℝ) (a : Vec3) : normSq (r • a) = r ^ 2 * normSq a := by
  show normSq ⟨r * a.x, r * a.y, r * a.z⟩ = r ^ 2 * normSq a
  unfold normSq dot3
  ring

/-- A normalized vector has squared norm at most `1` (exactly `1` away from
the zero vector, `0` at it). -/
theorem normSq_vnormalize_le_one (a : Vec3) : normSq (vnormalize a) ≤ 1 := by
  unfold vnormalize
  rw [normSq_smul]
  by_cases h : normSq a = 0
  · rw [h]
    norm_num
  · have hpos : 0 < normSq a := lt_of_le_of_ne (normSq_nonneg a) (Ne.symm h)
    have hnorm : vnorm a = Real.sqrt (normSq a) := rfl
    have hnpos : 0 < vnorm a := by
      rw [hnorm]
      exact Real.sqrt_pos.mpr hpos
    rw [inv_pow, ← vnorm_sq a]
    rw [inv_mul_cancel₀ (by positivity)]

/-- C8, amended: with fewer than 3 corners, `updateCalculation` returns
immediately — it neither reports any area or volume values nor touches the
mesh flag, so the previously displayed values simply persist. -/
theorem C8_tooFew_no_report (marks : List Vec3) (r : ℝ) (h : marks.length < 3) :
    updateCalcEarly marks r = .tooFew ∧
    observeEarly (updateCalcEarly marks r) =
      { areaSet := none, volumeSet := none, showMesh := none,
        meshBuilt := false, warned := false } := by
  have he : updateCalcEarly marks r = .tooFew := by
    unfold updateCalcEarly
    rw [if_pos h]
  refine ⟨he, ?_⟩
  rw [he]
  rfl

/-- Counterexample to C8 as stated: for a 2-corner input the computation
reports nothing at all — in particular the displayed area is not set to zero
(no `setArea`/`setVolume` call is made), contrary to the claim that a zero
result is reported and the displayed values are cleared. -/
theorem C8_counterexample :
    updateCalcEarly [⟨1, 0, 0⟩, ⟨0, 1, 0⟩] 1 = .tooFew ∧
    ¬ (observeEarly (updateCalcEarly [⟨1, 0, 0⟩, ⟨0, 1, 0⟩] 1)).areaSet = some 0 ∧
    ¬ (observeEarly (updateCalcEarly [⟨1, 0, 0⟩, ⟨0, 1, 0⟩] 1)).volumeSet = some (0, 0) := by
  have he : updateCalcEarly [⟨1, 0, 0⟩, ⟨0, 1, 0⟩] 1 = .tooFew := by
    unfold updateCalcEarly
    rw [if_pos (by norm_num)]
  rw [he]
  refine ⟨rfl, ?_, ?_⟩ <;> simp [observeEarly]

/-- Witness for C8 (amended): a 2-corner polygon. -/
theorem C8_witness :
    updateCalcEarly [⟨1, 0, 0⟩, ⟨0, 1, 0⟩] 2 = .tooFew ∧
    observeEarly (updateCalcEarly [⟨1, 0, 0⟩, ⟨0, 1, 0⟩] 2) =
      { areaSet := none, volumeSet := none, showMesh := none,
        meshBuilt := false, warned := false } :=
  C8_tooFew_no_report [⟨1, 0, 0⟩, ⟨0, 1, 0⟩] 2 (by norm_num)

/-- C2, amended: an accepted-size check failing (largest corner-to-centroid
distance exceeding the body radius) makes `updateCalculation` display a zero
area and zero volumes, disable the mesh, and return without constructing any
triangulation — but no warning is emitted anywhere on this path. -/
theorem C2_tooLarge_rejects (marks : List Vec3) (r : ℝ) (hlen : ¬ marks.length < 3)
    (hd : maxCornerDist marks > r) :
    updateCalcEarly marks r = .tooLarge ∧
    observeEarly (updateCalcEarly marks r) =
      { areaSet := some 0, volumeSet := some (0, 0), showMesh := some false,
        meshBuilt := false, warned := false } := by
  have he : updateCalcEarly marks r = .tooLarge := by
    unfold updateCalcEarly
    rw [if_neg hlen, if_pos hd]
  refine ⟨he, ?_⟩
  rw [he]
  rfl

@[ext] theorem Vec3.ext {a b : Vec3} (hx : a.x = b.x) (hy : a.y = b.y) (hz : a.z = b.z) :
    a = b := by
  cases a
  cases b
  simp_all

@[simp] theorem Vec3_add_x (a b : Vec3) : (a + b).x = a.x + b.x := rfl

@[simp] theorem Vec3_add_y (a b : Vec3) : (a + b).y = a.y + b.y := rfl

@[simp] theorem Vec3_add_z (a b : Vec3) : (a + b).z = a.z + b.z := rfl

@[simp] theorem Vec3_sub_x (a b : Vec3) : (a - b).x = a.x - b.x := rfl

@[simp] theorem Vec3_sub_y (a b : Vec3) : (a - b).y = a.y - b.y := rfl

@[simp] theorem Vec3_sub_z (a b : Vec3) : (a - b).z = a.z - b.z := rfl

@[simp] theorem Vec3_neg_x (a : Vec3) : (-a).x = -a.x := rfl

@[simp] theorem Vec3_neg_y (a : Vec3) : (-a).y = -a.y := rfl

@[simp] theorem Vec3_neg_z (a : Vec3) : (-a).z = -a.z := rfl

@[simp] theorem Vec3_smul_x (r : ℝ) (a : Vec3) : (r • a).x = r * a.x := rfl

@[simp] theorem Vec3_smul_y (r : ℝ) (a : Vec3) : (r • a).y = r * a.y := rfl

@[simp] theorem Vec3_smul_z (r : ℝ) (a : Vec3) : (r • a).z = r * a.z := rfl

@[simp] theorem Vec3_zero_x : (0 : Vec3).x = 0 := rfl

@[simp] theorem Vec3_zero_y : (0 : Vec3).y = 0 := rfl

@[simp] theorem Vec3_zero_z : (0 : Vec3).z = 0 := rfl

/-- Norm evaluation through a nonnegative square root. -/
theorem vnorm_eval (v : Vec3) (c : ℝ) (hc : 0 ≤ c) (h : normSq v = c ^ 2) : vnorm v = c := by
  unfold vnorm
  rw [h]
  exact Real.sqrt_sq hc

/-- The oversize example used for claim C2: centroid `(0, 0, 1)`, farthest
corner at distance `2` from it. -/
theorem maxCornerDist_c2example :
    maxCornerDist [⟨2, 0, 1⟩, ⟨-2, 0, 1⟩, ⟨0, 0, 1⟩] = 2 := by
  have havg : averagePosition [⟨2, 0, 1⟩, ⟨-2, 0, 1⟩, ⟨0, 0, 1⟩] = ⟨0, 0, 1⟩ := by
    unfold averagePosition
    simp only [List.foldl_cons, List.foldl_nil, List.length_cons, List.length_nil]
    ext <;> (simp; try norm_num)
  unfold maxCornerDist foldMax
  simp only [havg]
  have h1 : vnorm ((⟨0, 0, 1⟩ : Vec3) - ⟨2, 0, 1⟩) = 2 := by
    refine vnorm_eval _ 2 (by norm_num) ?_
    unfold normSq dot3
    simp
    norm_num
  have h2 : vnorm ((⟨0, 0, 1⟩ : Vec3) - ⟨-2, 0, 1⟩) = 2 := by
    refine vnorm_eval _ 2 (by norm_num) ?_
    unfold normSq dot3
    simp
    norm_num
  have h3 : vnorm ((⟨0, 0, 1⟩ : Vec3) - ⟨0, 0, 1⟩) = 0 := by
    refine vnorm_eval _ 0 (by norm_num) ?_
    unfold normSq dot3
    simp
  simp only [List.foldl_cons, List.foldl_nil, h1, h2, h3]
  norm_num

/-- Counterexample to C2 as stated: the triangle `(2,0,1), (-2,0,1), (0,0,1)`
on a body of radius `1` has largest corner-to-centroid distance `2 > 1` and
is rejected — but no warning is emitted on this path (the rejection branch,
PolygonTool.cpp lines 1097-1102, only displays zeros, disables the mesh and
returns), contrary to the claimed user-visible warning. -/
theorem C2_counterexample :
    updateCalcEarly [⟨2, 0, 1⟩, ⟨-2, 0, 1⟩, ⟨0, 0, 1⟩] 1 = .tooLarge ∧
    (observeEarly (updateCalcEarly [⟨2, 0, 1⟩, ⟨-2, 0, 1⟩, ⟨0, 0, 1⟩] 1)).warned = false := by
  have he : updateCalcEarly [⟨2, 0, 1⟩, ⟨-2, 0, 1⟩, ⟨0, 0, 1⟩] 1 = .tooLarge := by
    unfold updateCalcEarly
    rw [if_neg (by norm_num), if_pos (by rw [maxCornerDist_c2example]; norm_num)]
  refine ⟨he, ?_⟩
  rw [he]
  rfl

/-- Witness for C2 (amended): the same oversize triangle. -/
theorem C2_witness :
    updateCalcEarly [⟨2, 0, 1⟩, ⟨-2, 0, 1⟩, ⟨0, 0, 1⟩] 1 = .tooLarge ∧
    observeEarly (updateCalcEarly [⟨2, 0, 1⟩, ⟨-2, 0, 1⟩, ⟨0, 0, 1⟩] 1) =
      { areaSet := some 0, volumeSet := some (0, 0), showMesh := some false,
        meshBuilt := false, warned := false } :=
  C2_tooLarge_rejects [⟨2, 0, 1⟩, ⟨-2, 0, 1⟩, ⟨0, 0, 1⟩] 1 (by norm_num)
    (by rw [maxCornerDist_c2example]; norm_num)

/-- C1.  For a sub-triangle whose three corner heights over the least-squares
plane have the same (strict) sign, the step of `calculateAreaAndVolume` adds
exactly `flatBaseArea · (hl1 + hl2 + hl3) / 3` to the volume accumulators,
where `flatBaseArea` is half the norm of the cross product of the no-height
corner positions; the contribution goes to `pvol` when positive and to `nvol`
otherwise. -/
theorem C1_sameSign_prism (getH : Vec3 → ℝ) (toCart : Vec3 → ℝ → Vec3) (mdist : ℝ)
    (e n : Vec3) (r0 : ℝ) (middle normal2 middle2 : Vec3) (acc : ℝ × ℝ × ℝ)
    (t : SiteR × SiteR × SiteR)
    (hsign :
      (heightOver getH normal2 middle2 (liftP mdist e n middle r0 t.1) > 0 ∧
        heightOver getH normal2 middle2 (liftP mdist e n middle r0 t.2.1) > 0 ∧
        heightOver getH normal2 middle2 (liftP mdist e n middle r0 t.2.2) > 0) ∨
      (heightOver getH normal2 middle2 (liftP mdist e n middle r0 t.1) < 0 ∧
        heightOver getH normal2 middle2 (liftP mdist e n middle r0 t.2.1) < 0 ∧
        heightOver getH normal2 middle2 (liftP mdist e n middle r0 t.2.2) < 0)) :
    (calcAVStep getH toCart mdist e n r0 middle normal2 middle2 acc t).2 =
      (if (vnorm (cross3 (liftP mdist e n middle r0 t.2.1 - liftP mdist e n middle r0 t.1)
            (liftP mdist e n middle r0 t.2.2 - liftP mdist e n middle r0 t.1)) / 2) *
          ((heightOver getH normal2 middle2 (liftP mdist e n middle r0 t.1) +
            heightOver getH normal2 middle2 (liftP mdist e n middle r0 t.2.1) +
            heightOver getH normal2 middle2 (liftP mdist e n middle r0 t.2.2)) / 3) > 0 then
        (acc.2.1 +
          (vnorm (cross3 (liftP mdist e n middle r0 t.2.1 - liftP mdist e n middle r0 t.1)
            (liftP mdist e n middle r0 t.2.2 - liftP mdist e n middle r0 t.1)) / 2) *
          ((heightOver getH normal2 middle2 (liftP mdist e n middle r0 t.1) +
            heightOver getH normal2 middle2 (liftP mdist e n middle r0 t.2.1) +
            heightOver getH normal2 middle2 (liftP mdist e n middle r0 t.2.2)) / 3),
          acc.2.2)
      else
        (acc.2.1,
          acc.2.2 +
          (vnorm (cross3 (liftP mdist e n middle r0 t.2.1 - liftP mdist e n middle r0 t.1)
            (liftP mdist e n middle r0 t.2.2 - liftP mdist e n middle r0 t.1)) / 2) *
          ((heightOver getH normal2 middle2 (liftP mdist e n middle r0 t.1) +
            heightOver getH normal2 middle2 (liftP mdist e n middle r0 t.2.1) +
            heightOver getH normal2 middle2 (liftP mdist e n middle r0 t.2.2)) / 3))) := by
  simp only [calcAVStep]
  rw [if_pos hsign]
  split_ifs with hv
  · rfl
  · rfl

/-- All-zero-coordinate lift example used by the C1 witness. -/
theorem liftP_c1example (s : SiteR) :
    liftP 0 ⟨1, 0, 0⟩ ⟨0, 1, 0⟩ ⟨0, 0, 1⟩ 1 s = ⟨0, 0, 1⟩ := by
  have hin : (⟨0, 0, 1⟩ : Vec3) + ((0 : ℝ) * s.x) • ⟨1, 0, 0⟩ + ((0 : ℝ) * s.y) • ⟨0, 1, 0⟩
      = ⟨0, 0, 1⟩ := by
    ext <;> simp
  have hn : vnorm ⟨0, 0, 1⟩ = 1 := by
    refine vnorm_eval _ 1 (by norm_num) ?_
    unfold normSq dot3
    norm_num
  unfold liftP
  rw [hin]
  unfold vnormalize
  rw [hn]
  ext <;> simp

/-- Height-over-plane evaluation used by the C1 witness. -/
theorem heightOver_c1example :
    heightOver (fun _ => (5 : ℝ)) ⟨0, 0, 1⟩ ⟨0, 0, 1⟩ ⟨0, 0, 1⟩ = 5 := by
  have hn : vnorm ⟨0, 0, 1⟩ = 1 := by
    refine vnorm_eval _ 1 (by norm_num) ?_
    unfold normSq dot3
    norm_num
  unfold heightOver dot3
  rw [hn]
  norm_num

/-- Witness for C1: a triangle lifted to a single point of a flat terrain of
height 5, all three heights over the plane positive. -/
theorem C1_witness :
    (calcAVStep (fun _ => (5 : ℝ)) (fun p _ => p) 0 ⟨1, 0, 0⟩ ⟨0, 1, 0⟩ 1 ⟨0, 0, 1⟩
        ⟨0, 0, 1⟩ ⟨0, 0, 1⟩ (0, 0, 0) c1exTriangle).2 =
      (if (vnorm (cross3
            (liftP 0 ⟨1, 0, 0⟩ ⟨0, 1, 0⟩ ⟨0, 0, 1⟩ 1 c1exTriangle.2.1 -
              liftP 0 ⟨1, 0, 0⟩ ⟨0, 1, 0⟩ ⟨0, 0, 1⟩ 1 c1exTriangle.1)
            (liftP 0 ⟨1, 0, 0⟩ ⟨0, 1, 0⟩ ⟨0, 0, 1⟩ 1 c1exTriangle.2.2 -
              liftP 0 ⟨1, 0, 0⟩ ⟨0, 1, 0⟩ ⟨0, 0, 1⟩ 1 c1exTriangle.1)) / 2) *
          ((heightOver (fun _ => (5 : ℝ)) ⟨0, 0, 1⟩ ⟨0, 0, 1⟩
              (liftP 0 ⟨1, 0, 0⟩ ⟨0, 1, 0⟩ ⟨0, 0, 1⟩ 1 c1exTriangle.1) +
            heightOver (fun _ => (5 : ℝ)) ⟨0, 0, 1⟩ ⟨0, 0, 1⟩
              (liftP 0 ⟨1, 0, 0⟩ ⟨0, 1, 0⟩ ⟨0, 0, 1⟩ 1 c1exTriangle.2.1) +
            heightOver (fun _ => (5 : ℝ)) ⟨0, 0, 1⟩ ⟨0, 0, 1⟩
              (liftP 0 ⟨1, 0, 0⟩ ⟨0, 1, 0⟩ ⟨0, 0, 1⟩ 1
                c1exTriangle.2.2)) / 3) > 0 then
        ((0 : ℝ) +
          (vnorm (cross3
            (liftP 0 ⟨1, 0, 0⟩ ⟨0, 1, 0⟩ ⟨0, 0, 1⟩ 1 c1exTriangle.2.1 -
              liftP 0 ⟨1, 0, 0⟩ ⟨0, 1, 0⟩ ⟨0, 0, 1⟩ 1 c1exTriangle.1)
            (liftP 0 ⟨1, 0, 0⟩ ⟨0, 1, 0⟩ ⟨0, 0, 1⟩ 1 c1exTriangle.2.2 -
              liftP 0 ⟨1, 0, 0⟩ ⟨0, 1, 0⟩ ⟨0, 0, 1⟩ 1 c1exTriangle.1)) / 2) *
          ((heightOver (fun _ => (5 : ℝ)) ⟨0, 0, 1⟩ ⟨0, 0, 1⟩
              (liftP 0 ⟨1, 0, 0⟩ ⟨0, 1, 0⟩ ⟨0, 0, 1⟩ 1 c1exTriangle.1) +
            heightOver (fun _ => (5 : ℝ)) ⟨0, 0, 1⟩ ⟨0, 0, 1⟩
              (liftP 0 ⟨1, 0, 0⟩ ⟨0, 1, 0⟩ ⟨0, 0, 1⟩ 1 c1exTriangle.2.1) +
            heightOver (fun _ => (5 : ℝ)) ⟨0, 0, 1⟩ ⟨0, 0, 1⟩
              (liftP 0 ⟨1, 0, 0⟩ ⟨0, 1, 0⟩ ⟨0, 0, 1⟩ 1
                c1exTriangle.2.2)) / 3),
          (0 : ℝ))
      else
        ((0 : ℝ),
          (0 : ℝ) +
          (vnorm (cross3
            (liftP 0 ⟨1, 0, 0⟩ ⟨0, 1, 0⟩ ⟨0, 0, 1⟩ 1 c1exTriangle.2.1 -
              liftP 0 ⟨1, 0, 0⟩ ⟨0, 1, 0⟩ ⟨0, 0, 1⟩ 1 c1exTriangle.1)
            (liftP 0 ⟨1, 0, 0⟩ ⟨0, 1, 0⟩ ⟨0, 0, 1⟩ 1 c1exTriangle.2.2 -
              liftP 0 ⟨1, 0, 0⟩ ⟨0, 1, 0⟩ ⟨0, 0, 1⟩ 1 c1exTriangle.1)) / 2) *
          ((heightOver (fun _ => (5 : ℝ)) ⟨0, 0, 1⟩ ⟨0, 0, 1⟩
              (liftP 0 ⟨1, 0, 0⟩ ⟨0, 1, 0⟩ ⟨0, 0, 1⟩ 1 c1exTriangle.1) +
            heightOver (fun _ => (5 : ℝ)) ⟨0, 0, 1⟩ ⟨0, 0, 1⟩
              (liftP 0 ⟨1, 0, 0⟩ ⟨0, 1, 0⟩ ⟨0, 0, 1⟩ 1 c1exTriangle.2.1) +
            heightOver (fun _ => (5 : ℝ)) ⟨0, 0, 1⟩ ⟨0, 0, 1⟩
              (liftP 0 ⟨1, 0, 0⟩ ⟨0, 1, 0⟩ ⟨0, 0, 1⟩ 1
                c1exTriangle.2.2)) / 3))) :=
  C1_sameSign_prism (fun _ => (5 : ℝ)) (fun p _ => p) 0 ⟨1, 0, 0⟩ ⟨0, 1, 0⟩ 1 ⟨0, 0, 1⟩
    ⟨0, 0, 1⟩ ⟨0, 0, 1⟩ (0, 0, 0) c1exTriangle
    (Or.inl ⟨by rw [liftP_c1example, heightOver_c1example]; norm_num,
      by rw [liftP_c1example, heightOver_c1example]; norm_num,
      by rw [liftP_c1example, heightOver_c1example]; norm_num⟩)

theorem dot3_comm (a b : Vec3) : dot3 a b = dot3 b a := by
  unfold dot3
  ring

theorem dot3_smul_left (r : ℝ) (a b : Vec3) : dot3 (r • a) b = r * dot3 a b := by
  simp only [dot3, Vec3_smul_x, Vec3_smul_y, Vec3_smul_z]
  ring

theorem dot3_smul_right (r : ℝ) (a b : Vec3) : dot3 a (r • b) = r * dot3 a b := by
  simp only [dot3, Vec3_smul_x, Vec3_smul_y, Vec3_smul_z]
  ring

theorem normSq_sub_expand (a b : Vec3) :
    normSq (a - b) = normSq a - 2 * dot3 a b + normSq b := by
  simp only [normSq, dot3, Vec3_sub_x, Vec3_sub_y, Vec3_sub_z]
  ring

theorem normSq_smul_sub_expand (k : ℝ) (p m : Vec3) :
    normSq (k • p - m) = k ^ 2 * normSq p - 2 * k * dot3 p m + normSq m := by
  simp only [normSq, dot3, Vec3_sub_x, Vec3_sub_y, Vec3_sub_z, Vec3_smul_x, Vec3_smul_y,
    Vec3_smul_z]
  ring

theorem normSq_neg3 (a : Vec3) : normSq (-a) = normSq a := by
  simp only [normSq, dot3, Vec3_neg_x, Vec3_neg_y, Vec3_neg_z]
  ring

/-- The Lagrange identity for the 3D cross product. -/
theorem normSq_cross3_lagrange (a b : Vec3) :
    normSq (cross3 a b) + dot3 a b ^ 2 = normSq a * normSq b := by
  simp only [normSq, dot3, cross3]
  ring

theorem normSq_cross3_le (a b : Vec3) : normSq (cross3 a b) ≤ normSq a * normSq b := by
  have h := normSq_cross3_lagrange a b
  nlinarith [sq_nonneg (dot3 a b)]

theorem normSq_vnormalize_eq_one (a : Vec3) (h : normSq a ≠ 0) :
    normSq (vnormalize a) = 1 := by
  unfold vnormalize
  rw [normSq_smul]
  have hpos : 0 < normSq a := lt_of_le_of_ne (normSq_nonneg a) (Ne.symm h)
  have hnpos : 0 < vnorm a := Real.sqrt_pos.mpr hpos
  rw [inv_pow, ← vnorm_sq a, inv_mul_cancel₀ (by positivity)]

theorem normSq_northOf_le_one (n : Vec3) : normSq (northOf n) ≤ 1 := by
  unfold northOf
  split_ifs
  · exact normSq_vnormalize_le_one _
  · exact normSq_vnormalize_le_one _
  · norm_num [normSq, dot3]

theorem foldMax_cons (f : Vec3 → ℝ) (q : Vec3) (qs : List Vec3) (acc : ℝ) :
    foldMax f (q :: qs) acc = foldMax f qs (if f q > acc then f q else acc) := rfl

theorem foldMax_ge_acc (f : Vec3 → ℝ) (l : List Vec3) : ∀ acc : ℝ, acc ≤ foldMax f l acc := by
  induction l with
  | nil => exact fun acc => le_refl acc
  | cons q qs ih =>
    intro acc
    rw [foldMax_cons]
    refine le_trans ?_ (ih _)
    split_ifs with h
    · exact le_of_lt h
    · exact le_refl acc

theorem foldMax_ge_mem (f : Vec3 → ℝ) (p : Vec3) :
    ∀ (l : List Vec3), p ∈ l → ∀ acc : ℝ, f p ≤ foldMax f l acc := by
  intro l
  induction l with
  | nil => intro hp; cases hp
  | cons q qs ih =>
    intro hp acc
    rw [foldMax_cons]
    rcases List.mem_cons.mp hp with h | hmem
    · subst h
      refine le_trans ?_ (foldMax_ge_acc f qs _)
      split_ifs with h
      · exact le_refl (f p)
      · exact le_of_not_lt h
    · exact ih hmem _

theorem projectLoop_nil (md : ℝ) (n m e no : Vec3) (addr : ℤ) (lastPos : Vec3) :
    projectLoop md n m e no [] addr lastPos = some [] := rfl

theorem projectLoop_cons_skip (md : ℝ) (n m e no p : Vec3) (ps : List Vec3) (addr : ℤ)
    (lastPos : Vec3) (h : p = lastPos) :
    projectLoop md n m e no (p :: ps) addr lastPos =
      projectLoop md n m e no ps addr lastPos := by
  simp only [projectLoop]
  rw [if_pos h]

theorem projectLoop_cons_guard (md : ℝ) (n m e no p : Vec3) (ps : List Vec3) (addr : ℤ)
    (lastPos : Vec3) (hne : ¬ p = lastPos)
    (hg : (dot3 e ((dot3 n m / dot3 n p) • p - m) = 0 ∧ md = 0) ∨
      (dot3 no ((dot3 n m / dot3 n p) • p - m) = 0 ∧ md = 0)) :
    projectLoop md n m e no (p :: ps) addr lastPos = none := by
  simp only [projectLoop]
  rw [if_neg hne, if_pos hg]

theorem projectLoop_cons_none (md : ℝ) (n m e no p : Vec3) (ps : List Vec3) (addr : ℤ)
    (lastPos : Vec3) (hne : ¬ p = lastPos)
    (hg : ¬ ((dot3 e ((dot3 n m / dot3 n p) • p - m) = 0 ∧ md = 0) ∨
      (dot3 no ((dot3 n m / dot3 n p) • p - m) = 0 ∧ md = 0)))
    (hrec : projectLoop md n m e no ps (addr + 1) p = none) :
    projectLoop md n m e no (p :: ps) addr lastPos = none := by
  simp only [projectLoop]
  rw [if_neg hne, if_neg hg, hrec]

theorem projectLoop_cons_keep (md : ℝ) (n m e no p : Vec3) (ps : List Vec3) (addr : ℤ)
    (lastPos : Vec3) (hne : ¬ p = lastPos)
    (hg : ¬ ((dot3 e ((dot3 n m / dot3 n p) • p - m) = 0 ∧ md = 0) ∨
      (dot3 no ((dot3 n m / dot3 n p) • p - m) = 0 ∧ md = 0)))
    (rest : List SiteR)
    (hrec : projectLoop md n m e no ps (addr + 1) p = some rest) :
    projectLoop md n m e no (p :: ps) addr lastPos =
      some (⟨dot3 e ((dot3 n m / dot3 n p) • p - m) / md,
        dot3 no ((dot3 n m / dot3 n p) • p - m) / md, addr⟩ :: rest) := by
  simp only [projectLoop]
  rw [if_neg hne, if_neg hg, hrec]

/-- Every site produced by the projection loop arises from some input mark by
the projection formula of PolygonTool.cpp lines 1177-1184. -/
theorem projectLoop_mem (md : ℝ) (n m e no : Vec3) :
    ∀ (l : List Vec3) (addr : ℤ) (lastPos : Vec3) (out : List SiteR),
      projectLoop md n m e no l addr lastPos = some out →
      ∀ s ∈ out, ∃ p ∈ l,
        s.x = dot3 e ((dot3 n m / dot3 n p) • p - m) / md ∧
        s.y = dot3 no ((dot3 n m / dot3 n p) • p - m) / md := by
  intro l
  induction l with
  | nil =>
    intro addr lastPos out h s hs
    rw [projectLoop_nil] at h
    injection h with h
    subst h
    cases hs
  | cons p ps ih =>
    intro addr lastPos out h s hs
    by_cases hskip : p = lastPos
    · rw [projectLoop_cons_skip md n m e no p ps addr lastPos hskip] at h
      obtain ⟨q, hq, hx⟩ := ih addr lastPos out h s hs
      exact ⟨q, List.mem_cons_of_mem p hq, hx⟩
    · by_cases hguard : (dot3 e ((dot3 n m / dot3 n p) • p - m) = 0 ∧ md = 0) ∨
          (dot3 no ((dot3 n m / dot3 n p) • p - m) = 0 ∧ md = 0)
      · rw [projectLoop_cons_guard md n m e no p ps addr lastPos hskip hguard] at h
        exact Option.noConfusion h
      · cases hrec : projectLoop md n m e no ps (addr + 1) p with
        | none =>
          rw [projectLoop_cons_none md n m e no p ps addr lastPos hskip hguard hrec] at h
          exact Option.noConfusion h
        | some rest =>
          rw [projectLoop_cons_keep md n m e no p ps addr lastPos hskip hguard rest hrec] at h
          injection h with h
          subst h
          rcases List.mem_cons.mp hs with rfl | hmem
          · exact ⟨p, List.mem_cons_self p ps, rfl, rfl⟩
          · obtain ⟨q, hq, hx⟩ := ih (addr + 1) p rest hrec s hmem
            exact ⟨q, List.mem_cons_of_mem p hq, hx⟩

/-- Core geometric bound: an on-sphere point `p` whose distance to the anchor
centroid `C` is at most `d < r` projects, along the ray from the body centre
onto the tangent plane through `r • n` (`n` the unit centroid direction), to a
point whose coordinate in any direction `u` of norm at most one is strictly
below `1.2 * d * r / sqrt(r^2 - d^2)` in absolute value. -/
theorem dot3_proj_bound (d r : ℝ) (C p u : Vec3) (hr : 0 < r) (hd : 0 < d) (hdr : d < r)
    (hCne : normSq C ≠ 0) (hp : vnorm p = r) (hdist : vnorm (C - p) ≤ d)
    (hu : normSq u ≤ 1) :
    |dot3 u ((dot3 (vnormalize C) (r • vnormalize C) / dot3 (vnormalize C) p) • p
      - r • vnormalize C)| < 1.2 * d * r / Real.sqrt (r ^ 2 - d ^ 2) := by
  set n := vnormalize C with hn
  have hrd2 : 0 < r ^ 2 - d ^ 2 := by nlinarith
  have hsr : 0 < Real.sqrt (r ^ 2 - d ^ 2) := Real.sqrt_pos.mpr hrd2
  have hn1 : normSq n = 1 := normSq_vnormalize_eq_one C hCne
  have hCpos : 0 < normSq C := lt_of_le_of_ne (normSq_nonneg C) (Ne.symm hCne)
  have hcpos : 0 < vnorm C := Real.sqrt_pos.mpr hCpos
  have hpd : normSq p = r ^ 2 := by rw [← vnorm_sq, hp]
  have hCd : normSq (C - p) ≤ d ^ 2 := by
    rw [← vnorm_sq]
    have h0 := vnorm_nonneg (C - p)
    nlinarith
  have hexpC := normSq_sub_expand C p
  rw [hpd] at hexpC
  rw [hexpC] at hCd
  have ht : 0 < dot3 C p := by linarith
  have hqt : dot3 n p = (vnorm C)⁻¹ * dot3 C p := by
    rw [hn]
    exact dot3_smul_left _ C p
  have hq : 0 < dot3 n p := by
    rw [hqt]
    exact mul_pos (inv_pos.mpr hcpos) ht
  have hcq : vnorm C * dot3 n p = dot3 C p := by
    rw [hqt, ← mul_assoc, mul_inv_cancel₀ (ne_of_gt hcpos), one_mul]
  have hkey : r ^ 2 - dot3 n p ^ 2 ≤ d ^ 2 := by
    nlinarith [sq_nonneg (dot3 n p - vnorm C), hcq, vnorm_sq C]
  have hnm : dot3 n (r • n) = r := by
    rw [dot3_smul_right]
    have hnn : dot3 n n = 1 := hn1
    rw [hnn, mul_one]
  have hpm : dot3 p (r • n) = r * dot3 n p := by
    rw [dot3_smul_right, dot3_comm]
  have hmm : normSq (r • n) = r ^ 2 := by rw [normSq_smul, hn1, mul_one]
  have hw : normSq ((dot3 n (r • n) / dot3 n p) • p - r • n) =
      r ^ 4 / dot3 n p ^ 2 - r ^ 2 := by
    rw [normSq_smul_sub_expand, hpd, hpm, hmm, hnm]
    field_simp
    ring
  have hwb : normSq ((dot3 n (r • n) / dot3 n p) • p - r • n) ≤
      r ^ 2 * d ^ 2 / (r ^ 2 - d ^ 2) := by
    rw [hw]
    have hq2 : 0 < dot3 n p ^ 2 := by positivity
    rw [sub_le_iff_le_add]
    have h2 : r ^ 2 * d ^ 2 / (r ^ 2 - d ^ 2) + r ^ 2 = r ^ 4 / (r ^ 2 - d ^ 2) := by
      field_simp
      ring
    rw [h2, div_le_div_iff₀ hq2 hrd2]
    have h3 : r ^ 2 - d ^ 2 ≤ dot3 n p ^ 2 := by linarith
    exact mul_le_mul_of_nonneg_left h3 (by positivity)
  have hcs : dot3 u ((dot3 n (r • n) / dot3 n p) • p - r • n) ^ 2 ≤
      r ^ 2 * d ^ 2 / (r ^ 2 - d ^ 2) := by
    have h1 := dot3_sq_le u ((dot3 n (r • n) / dot3 n p) • p - r • n)
    have h2 := normSq_nonneg ((dot3 n (r • n) / dot3 n p) • p - r • n)
    nlinarith [mul_nonneg (sub_nonneg.mpr hu) h2]
  have hB : (0 : ℝ) ≤ r * d / Real.sqrt (r ^ 2 - d ^ 2) := by positivity
  have hBsq : (r * d / Real.sqrt (r ^ 2 - d ^ 2)) ^ 2 = r ^ 2 * d ^ 2 / (r ^ 2 - d ^ 2) := by
    rw [div_pow, mul_pow, Real.sq_sqrt (le_of_lt hrd2)]
  have habs : |dot3 u ((dot3 n (r • n) / dot3 n p) • p - r • n)| ≤
      r * d / Real.sqrt (r ^ 2 - d ^ 2) := by
    rw [← Real.sqrt_sq_eq_abs]
    calc Real.sqrt (dot3 u ((dot3 n (r • n) / dot3 n p) • p - r • n) ^ 2)
        ≤ Real.sqrt ((r * d / Real.sqrt (r ^ 2 - d ^ 2)) ^ 2) :=
          Real.sqrt_le_sqrt (by rw [hBsq]; exact hcs)
      _ = r * d / Real.sqrt (r ^ 2 - d ^ 2) := Real.sqrt_sq hB
  have hlt : r * d / Real.sqrt (r ^ 2 - d ^ 2) < 1.2 * d * r / Real.sqrt (r ^ 2 - d ^ 2) := by
    rw [div_lt_div_iff₀ hsr hsr]
    nlinarith [mul_pos (mul_pos hr hd) hsr]
  exact lt_of_le_of_lt habs hlt

/-- C4: for every accepted polygon whose anchor positions lie on the sphere of
radius `r`, the projected corner coordinates handed to the sweep are divided
by `maxDist = 1.2 * d * r / sqrt(r^2 - d^2)` and lie strictly inside the unit
square `|x| < 1`, `|y| < 1` (hence within the claimed bounds; the spec's
safety-margin assertion holds on-sphere, while off-sphere anchors violate it —
see the counterexample). -/
theorem C4_onSphere_unit_disk (marks : List Vec3) (r md : ℝ) (cs : List SiteR)
    (hr : 0 < r) (hsph : ∀ p ∈ marks, vnorm p = r)
    (h : updateCalcEarly marks r = .proceed md cs) :
    md = 1.2 * maxCornerDist marks * r / Real.sqrt (r ^ 2 - maxCornerDist marks ^ 2) ∧
    ∀ s ∈ cs, |s.x| < 1 ∧ |s.y| < 1 := by
  unfold updateCalcEarly at h
  by_cases h3 : marks.length < 3
  · rw [if_pos h3] at h
    exact UpdateEarly.noConfusion h
  rw [if_neg h3] at h
  by_cases hbig : maxCornerDist marks > r
  · rw [if_pos hbig] at h
    exact UpdateEarly.noConfusion h
  rw [if_neg hbig] at h
  cases hproj : projectLoop
      (1.2 * maxCornerDist marks * r / Real.sqrt (r ^ 2 - maxCornerDist marks ^ 2))
      (vnormalize (averagePosition marks))
      (r • vnormalize (averagePosition marks))
      (-(cross3 (vnormalize (averagePosition marks))
        (northOf (vnormalize (averagePosition marks)))))
      (northOf (vnormalize (averagePosition marks)))
      marks 0 0 with
  | none =>
    rw [hproj] at h
    exact UpdateEarly.noConfusion h
  | some corners =>
    rw [hproj] at h
    replace h : UpdateEarly.proceed
        (1.2 * maxCornerDist marks * r / Real.sqrt (r ^ 2 - maxCornerDist marks ^ 2))
        corners = UpdateEarly.proceed md cs := h
    injection h with h1 h2
    subst h2
    refine ⟨h1.symm, ?_⟩
    intro s hs
    obtain ⟨p, hpmem, hsx, hsy⟩ := projectLoop_mem _ _ _ _ _ marks 0 0 corners hproj s hs
    by_cases hmd0 : 1.2 * maxCornerDist marks * r /
        Real.sqrt (r ^ 2 - maxCornerDist marks ^ 2) = 0
    · rw [hsx, hsy, hmd0]
      simp
    · have hd0 : 0 ≤ maxCornerDist marks := by
        unfold maxCornerDist
        exact foldMax_ge_acc _ marks 0
      have hsrne : Real.sqrt (r ^ 2 - maxCornerDist marks ^ 2) ≠ 0 := by
        intro h0
        rw [h0, div_zero] at hmd0
        exact hmd0 rfl
      have hsrpos : 0 < Real.sqrt (r ^ 2 - maxCornerDist marks ^ 2) :=
        lt_of_le_of_ne (Real.sqrt_nonneg _) (Ne.symm hsrne)
      have hrd2 : 0 < r ^ 2 - maxCornerDist marks ^ 2 := Real.sqrt_pos.mp hsrpos
      have hdpos : 0 < maxCornerDist marks := by
        rcases eq_or_lt_of_le hd0 with heq | hlt
        · exfalso
          apply hmd0
          rw [← heq]
          simp
        · exact hlt
      have hdr : maxCornerDist marks < r := by nlinarith
      have hCne : normSq (averagePosition marks) ≠ 0 := by
        intro h0
        have hC0 : averagePosition marks = ⟨0, 0, 0⟩ := (normSq_eq_zero_iff _).mp h0
        have hne : marks ≠ [] := by
          intro hnil
          rw [hnil] at h3
          simp at h3
        obtain ⟨p0, hp0⟩ := List.exists_mem_of_ne_nil marks hne
        have hby : vnorm (averagePosition marks - p0) ≤ maxCornerDist marks := by
          unfold maxCornerDist
          exact foldMax_ge_mem (fun q => vnorm (averagePosition marks - q)) p0 marks hp0 0
        rw [hC0] at hby
        have hz : normSq ((⟨0, 0, 0⟩ : Vec3) - p0) = normSq p0 := by
          simp only [normSq, dot3, Vec3_sub_x, Vec3_sub_y, Vec3_sub_z]
          ring
        have hvn : vnorm ((⟨0, 0, 0⟩ : Vec3) - p0) = r := by
          unfold vnorm
          rw [hz]
          exact hsph p0 hp0
        rw [hvn] at hby
        linarith
      have hpr := hsph p hpmem
      have hpdist : vnorm (averagePosition marks - p) ≤ maxCornerDist marks := by
        unfold maxCornerDist
        exact foldMax_ge_mem (fun q => vnorm (averagePosition marks - q)) p marks hpmem 0
      have hmdpos : 0 < 1.2 * maxCornerDist marks * r /
          Real.sqrt (r ^ 2 - maxCornerDist marks ^ 2) := by
        apply div_pos
        · nlinarith [mul_pos hdpos hr]
        · exact hsrpos
      have heast : normSq (-(cross3 (vnormalize (averagePosition marks))
          (northOf (vnormalize (averagePosition marks))))) ≤ 1 := by
        rw [normSq_neg3]
        refine le_trans (normSq_cross3_le _ _) ?_
        rw [normSq_vnormalize_eq_one _ hCne, one_mul]
        exact normSq_northOf_le_one _
      have hnorthb : normSq (northOf (vnormalize (averagePosition marks))) ≤ 1 :=
        normSq_northOf_le_one _
      constructor
      · rw [hsx, abs_div, abs_of_pos hmdpos, div_lt_one hmdpos]
        exact dot3_proj_bound (maxCornerDist marks) r (averagePosition marks) p _
          hr hdpos hdr hCne hpr hpdist heast
      · rw [hsy, abs_div, abs_of_pos hmdpos, div_lt_one hmdpos]
        exact dot3_proj_bound (maxCornerDist marks) r (averagePosition marks) p _
          hr hdpos hdr hCne hpr hpdist hnorthb

theorem Vec3_ne_of_x (a b : Vec3) (h : a.x ≠ b.x) : a ≠ b :=
  fun he => h (congrArg Vec3.x he)

/-- Centroid of the off-sphere corner list used against C4. -/
theorem avg_c4cex :
    averagePosition [⟨-1/5, 0, 1/4⟩, ⟨-2/5, 0, 1/4⟩, ⟨3/5, 0, 1/4⟩] = ⟨0, 0, 1/4⟩ := by
  unfold averagePosition
  simp only [List.foldl_cons, List.foldl_nil, List.length_cons, List.length_nil]
  ext <;> (simp; try norm_num)

/-- Largest corner-centroid distance of the off-sphere corner list. -/
theorem maxd_c4cex :
    maxCornerDist [⟨-1/5, 0, 1/4⟩, ⟨-2/5, 0, 1/4⟩, ⟨3/5, 0, 1/4⟩] = 3/5 := by
  unfold maxCornerDist foldMax
  rw [avg_c4cex]
  simp only [List.foldl_cons, List.foldl_nil]
  have h1 : vnorm ((⟨0, 0, 1/4⟩ : Vec3) - ⟨-1/5, 0, 1/4⟩) = 1/5 := by
    refine vnorm_eval _ (1/5) (by norm_num) ?_
    simp only [normSq, dot3, Vec3_sub_x, Vec3_sub_y, Vec3_sub_z]
    norm_num
  have h2 : vnorm ((⟨0, 0, 1/4⟩ : Vec3) - ⟨-2/5, 0, 1/4⟩) = 2/5 := by
    refine vnorm_eval _ (2/5) (by norm_num) ?_
    simp only [normSq, dot3, Vec3_sub_x, Vec3_sub_y, Vec3_sub_z]
    norm_num
  have h3 : vnorm ((⟨0, 0, 1/4⟩ : Vec3) - ⟨3/5, 0, 1/4⟩) = 3/5 := by
    refine vnorm_eval _ (3/5) (by norm_num) ?_
    simp only [normSq, dot3, Vec3_sub_x, Vec3_sub_y, Vec3_sub_z]
    norm_num
  rw [h1, h2, h3]
  rw [if_pos (by norm_num : (1:ℝ)/5 > 0)]
  rw [if_pos (by norm_num : (2:ℝ)/5 > 1/5)]
  rw [if_pos (by norm_num : (3:ℝ)/5 > 2/5)]

/-- Normalized direction of the centroid `(0, 0, 1/4)`. -/
theorem vnormalize_c4cex : vnormalize ⟨0, 0, 1/4⟩ = (⟨0, 0, 1⟩ : Vec3) := by
  unfold vnormalize
  rw [vnorm_eval ⟨0, 0, 1/4⟩ (1/4) (by norm_num)
    (by simp only [normSq, dot3]; norm_num)]
  ext <;> (simp; try norm_num)

/-- North tangent at the pole normal. -/
theorem northOf_pole : northOf ⟨0, 0, 1⟩ = (⟨0, 1, 0⟩ : Vec3) := by
  unfold northOf
  split_ifs with h1 h2
  · simp at h1
  · simp at h1
  · rfl

/-- East tangent at the pole normal. -/
theorem east_pole : -(cross3 ⟨0, 0, 1⟩ ⟨0, 1, 0⟩) = (⟨1, 0, 0⟩ : Vec3) := by
  ext <;> (simp [cross3]; try norm_num)

/-- Scaling the pole normal by the radius `1`. -/
theorem smul_one_pole : (1 : ℝ) • (⟨0, 0, 1⟩ : Vec3) = ⟨0, 0, 1⟩ := by
  ext <;> simp

/-- The square root appearing in `maxDist` for `r = 1`, `d = 3/5`. -/
theorem sqrt_c4 : Real.sqrt ((1 : ℝ) ^ 2 - (3/5) ^ 2) = 4/5 := by
  rw [(by norm_num : (1:ℝ) ^ 2 - (3/5) ^ 2 = (4/5) ^ 2), Real.sqrt_sq (by norm_num)]

/-- The NaN guard never fires with `maxDist = 9/10`. -/
theorem guard_c4 (e no m n p : Vec3) :
    ¬ ((dot3 e ((dot3 n m / dot3 n p) • p - m) = 0 ∧ (9/10 : ℝ) = 0) ∨
      (dot3 no ((dot3 n m / dot3 n p) • p - m) = 0 ∧ (9/10 : ℝ) = 0)) := by
  rintro (⟨-, h⟩ | ⟨-, h⟩) <;> norm_num at h

/-- Projection of the off-sphere corner list: the third site lands at
`x = 8/3`, far outside the unit disk. -/
theorem projectLoop_c4cex :
    projectLoop (9/10) ⟨0, 0, 1⟩ ⟨0, 0, 1⟩ ⟨1, 0, 0⟩ ⟨0, 1, 0⟩
      [⟨-1/5, 0, 1/4⟩, ⟨-2/5, 0, 1/4⟩, ⟨3/5, 0, 1/4⟩] 0 0 =
      some [⟨-8/9, 0, 0⟩, ⟨-16/9, 0, 1⟩, ⟨8/3, 0, 2⟩] := by
  have h0 : projectLoop (9/10) ⟨0, 0, 1⟩ ⟨0, 0, 1⟩ ⟨1, 0, 0⟩ ⟨0, 1, 0⟩ [] 3 ⟨3/5, 0, 1/4⟩ =
      some [] := projectLoop_nil _ _ _ _ _ _ _
  have h1 := projectLoop_cons_keep (9/10) ⟨0, 0, 1⟩ ⟨0, 0, 1⟩ ⟨1, 0, 0⟩ ⟨0, 1, 0⟩
    ⟨3/5, 0, 1/4⟩ [] 2 ⟨-2/5, 0, 1/4⟩ (Vec3_ne_of_x _ _ (by norm_num))
    (guard_c4 _ _ _ _ _) [] h0
  rw [(by norm_num [dot3] :
      dot3 ⟨1, 0, 0⟩ ((dot3 ⟨0, 0, 1⟩ ⟨0, 0, 1⟩ / dot3 ⟨0, 0, 1⟩ ⟨3/5, 0, 1/4⟩) •
        (⟨3/5, 0, 1/4⟩ : Vec3) - ⟨0, 0, 1⟩) / (9/10) = (8 : ℝ)/3),
    (by norm_num [dot3] :
      dot3 ⟨0, 1, 0⟩ ((dot3 ⟨0, 0, 1⟩ ⟨0, 0, 1⟩ / dot3 ⟨0, 0, 1⟩ ⟨3/5, 0, 1/4⟩) •
        (⟨3/5, 0, 1/4⟩ : Vec3) - ⟨0, 0, 1⟩) / (9/10) = (0 : ℝ))] at h1
  have h2 := projectLoop_cons_keep (9/10) ⟨0, 0, 1⟩ ⟨0, 0, 1⟩ ⟨1, 0, 0⟩ ⟨0, 1, 0⟩
    ⟨-2/5, 0, 1/4⟩ [⟨3/5, 0, 1/4⟩] 1 ⟨-1/5, 0, 1/4⟩ (Vec3_ne_of_x _ _ (by norm_num))
    (guard_c4 _ _ _ _ _) _ h1
  rw [(by norm_num [dot3] :
      dot3 ⟨1, 0, 0⟩ ((dot3 ⟨0, 0, 1⟩ ⟨0, 0, 1⟩ / dot3 ⟨0, 0, 1⟩ ⟨-2/5, 0, 1/4⟩) •
        (⟨-2/5, 0, 1/4⟩ : Vec3) - ⟨0, 0, 1⟩) / (9/10) = (-16 : ℝ)/9),
    (by norm_num [dot3] :
      dot3 ⟨0, 1, 0⟩ ((dot3 ⟨0, 0, 1⟩ ⟨0, 0, 1⟩ / dot3 ⟨0, 0, 1⟩ ⟨-2/5, 0, 1/4⟩) •
        (⟨-2/5, 0, 1/4⟩ : Vec3) - ⟨0, 0, 1⟩) / (9/10) = (0 : ℝ))] at h2
  have h3 := projectLoop_cons_keep (9/10) ⟨0, 0, 1⟩ ⟨0, 0, 1⟩ ⟨1, 0, 0⟩ ⟨0, 1, 0⟩
    ⟨-1/5, 0, 1/4⟩ [⟨-2/5, 0, 1/4⟩, ⟨3/5, 0, 1/4⟩] 0 0 (Vec3_ne_of_x _ _ (by norm_num))
    (guard_c4 _ _ _ _ _) _ h2
  rw [(by norm_num [dot3] :
      dot3 ⟨1, 0, 0⟩ ((dot3 ⟨0, 0, 1⟩ ⟨0, 0, 1⟩ / dot3 ⟨0, 0, 1⟩ ⟨-1/5, 0, 1/4⟩) •
        (⟨-1/5, 0, 1/4⟩ : Vec3) - ⟨0, 0, 1⟩) / (9/10) = (-8 : ℝ)/9),
    (by norm_num [dot3] :
      dot3 ⟨0, 1, 0⟩ ((dot3 ⟨0, 0, 1⟩ ⟨0, 0, 1⟩ / dot3 ⟨0, 0, 1⟩ ⟨-1/5, 0, 1/4⟩) •
        (⟨-1/5, 0, 1/4⟩ : Vec3) - ⟨0, 0, 1⟩) / (9/10) = (0 : ℝ))] at h3
  exact h3

/-- Counterexample to C4 as stated: the anchor positions need not lie on the
sphere of radius `r`, and the spec asserts the unit-disk bound for every
accepted polygon.  These three anchors (inside the sphere, at height `1/4`)
pass the `d ≤ r` acceptance check, yet their projections reach `x = -16/9`
and `x = 8/3`, far outside the unit disk. -/
theorem C4_counterexample :
    updateCalcEarly [⟨-1/5, 0, 1/4⟩, ⟨-2/5, 0, 1/4⟩, ⟨3/5, 0, 1/4⟩] 1 =
      .proceed (9/10) [⟨-8/9, 0, 0⟩, ⟨-16/9, 0, 1⟩, ⟨8/3, 0, 2⟩] ∧
    ¬ ∀ s ∈ [(⟨-8/9, 0, 0⟩ : SiteR), ⟨-16/9, 0, 1⟩, ⟨8/3, 0, 2⟩],
        |s.x| < 1 ∧ |s.y| < 1 := by
  constructor
  · unfold updateCalcEarly
    rw [if_neg (by simp :
      ¬ List.length [(⟨-1/5, 0, 1/4⟩ : Vec3), ⟨-2/5, 0, 1/4⟩, ⟨3/5, 0, 1/4⟩] < 3)]
    rw [maxd_c4cex, if_neg (by norm_num : ¬ (3:ℝ)/5 > 1)]
    rw [avg_c4cex, vnormalize_c4cex, northOf_pole, east_pole, smul_one_pole, sqrt_c4]
    rw [(by norm_num : (1.2 : ℝ) * (3/5) * 1 / (4/5) = 9/10)]
    rw [projectLoop_c4cex]
  · intro hall
    have h8 := (hall ⟨8/3, 0, 2⟩ (by simp)).1
    rw [(rfl : ((⟨8/3, 0, 2⟩ : SiteR)).x = 8/3),
      abs_of_nonneg (by norm_num : (0:ℝ) ≤ 8/3)] at h8
    norm_num at h8

/-- Centroid of the on-sphere corner list used as the C4 witness. -/
theorem avg_c4wit :
    averagePosition [⟨3/5, 0, 4/5⟩, ⟨3/5, 0, 4/5⟩, ⟨-3/5, 0, 4/5⟩, ⟨-3/5, 0, 4/5⟩] =
      ⟨0, 0, 4/5⟩ := by
  unfold averagePosition
  simp only [List.foldl_cons, List.foldl_nil, List.length_cons, List.length_nil]
  ext <;> (simp; try norm_num)

/-- Largest corner-centroid distance of the on-sphere corner list. -/
theorem maxd_c4wit :
    maxCornerDist [⟨3/5, 0, 4/5⟩, ⟨3/5, 0, 4/5⟩, ⟨-3/5, 0, 4/5⟩, ⟨-3/5, 0, 4/5⟩] = 3/5 := by
  unfold maxCornerDist foldMax
  rw [avg_c4wit]
  simp only [List.foldl_cons, List.foldl_nil]
  have h1 : vnorm ((⟨0, 0, 4/5⟩ : Vec3) - ⟨3/5, 0, 4/5⟩) = 3/5 := by
    refine vnorm_eval _ (3/5) (by norm_num) ?_
    simp only [normSq, dot3, Vec3_sub_x, Vec3_sub_y, Vec3_sub_z]
    norm_num
  have h2 : vnorm ((⟨0, 0, 4/5⟩ : Vec3) - ⟨-3/5, 0, 4/5⟩) = 3/5 := by
    refine vnorm_eval _ (3/5) (by norm_num) ?_
    simp only [normSq, dot3, Vec3_sub_x, Vec3_sub_y, Vec3_sub_z]
    norm_num
  rw [h1, h2]
  have hno : ¬ (3:ℝ)/5 > 3/5 := by norm_num
  rw [if_pos (by norm_num : (3:ℝ)/5 > 0), if_neg hno, if_neg hno, if_neg hno]

/-- Normalized direction of the centroid `(0, 0, 4/5)`. -/
theorem vnormalize_c4wit : vnormalize ⟨0, 0, 4/5⟩ = (⟨0, 0, 1⟩ : Vec3) := by
  unfold vnormalize
  rw [vnorm_eval ⟨0, 0, 4/5⟩ (4/5) (by norm_num)
    (by simp only [normSq, dot3]; norm_num)]
  ext <;> (simp; try norm_num)

/-- Projection of the on-sphere corner list: consecutive duplicates are
skipped and the two kept corners land at `x = 5/6` and `x = -5/6`. -/
theorem projectLoop_c4wit :
    projectLoop (9/10) ⟨0, 0, 1⟩ ⟨0, 0, 1⟩ ⟨1, 0, 0⟩ ⟨0, 1, 0⟩
      [⟨3/5, 0, 4/5⟩, ⟨3/5, 0, 4/5⟩, ⟨-3/5, 0, 4/5⟩, ⟨-3/5, 0, 4/5⟩] 0 0 =
      some [⟨5/6, 0, 0⟩, ⟨-5/6, 0, 1⟩] := by
  have h0 : projectLoop (9/10) ⟨0, 0, 1⟩ ⟨0, 0, 1⟩ ⟨1, 0, 0⟩ ⟨0, 1, 0⟩ [] 2 ⟨-3/5, 0, 4/5⟩ =
      some [] := projectLoop_nil _ _ _ _ _ _ _
  have h1 : projectLoop (9/10) ⟨0, 0, 1⟩ ⟨0, 0, 1⟩ ⟨1, 0, 0⟩ ⟨0, 1, 0⟩
      [⟨-3/5, 0, 4/5⟩] 2 ⟨-3/5, 0, 4/5⟩ = some [] := by
    rw [projectLoop_cons_skip _ _ _ _ _ _ _ _ _ rfl]
    exact h0
  have h2 := projectLoop_cons_keep (9/10) ⟨0, 0, 1⟩ ⟨0, 0, 1⟩ ⟨1, 0, 0⟩ ⟨0, 1, 0⟩
    ⟨-3/5, 0, 4/5⟩ [⟨-3/5, 0, 4/5⟩] 1 ⟨3/5, 0, 4/5⟩ (Vec3_ne_of_x _ _ (by norm_num))
    (guard_c4 _ _ _ _ _) [] h1
  rw [(by norm_num [dot3] :
      dot3 ⟨1, 0, 0⟩ ((dot3 ⟨0, 0, 1⟩ ⟨0, 0, 1⟩ / dot3 ⟨0, 0, 1⟩ ⟨-3/5, 0, 4/5⟩) •
        (⟨-3/5, 0, 4/5⟩ : Vec3) - ⟨0, 0, 1⟩) / (9/10) = (-5 : ℝ)/6),
    (by norm_num [dot3] :
      dot3 ⟨0, 1, 0⟩ ((dot3 ⟨0, 0, 1⟩ ⟨0, 0, 1⟩ / dot3 ⟨0, 0, 1⟩ ⟨-3/5, 0, 4/5⟩) •
        (⟨-3/5, 0, 4/5⟩ : Vec3) - ⟨0, 0, 1⟩) / (9/10) = (0 : ℝ))] at h2
  have h3 : projectLoop (9/10) ⟨0, 0, 1⟩ ⟨0, 0, 1⟩ ⟨1, 0, 0⟩ ⟨0, 1, 0⟩
      [⟨3/5, 0, 4/5⟩, ⟨-3/5, 0, 4/5⟩, ⟨-3/5, 0, 4/5⟩] 1 ⟨3/5, 0, 4/5⟩ =
      some [⟨-5/6, 0, 1⟩] := by
    rw [projectLoop_cons_skip _ _ _ _ _ _ _ _ _ rfl]
    exact h2
  have h4 := projectLoop_cons_keep (9/10) ⟨0, 0, 1⟩ ⟨0, 0, 1⟩ ⟨1, 0, 0⟩ ⟨0, 1, 0⟩
    ⟨3/5, 0, 4/5⟩ [⟨3/5, 0, 4/5⟩, ⟨-3/5, 0, 4/5⟩, ⟨-3/5, 0, 4/5⟩] 0 0
    (Vec3_ne_of_x _ _ (by norm_num)) (guard_c4 _ _ _ _ _) _ h3
  rw [(by norm_num [dot3] :
      dot3 ⟨1, 0, 0⟩ ((dot3 ⟨0, 0, 1⟩ ⟨0, 0, 1⟩ / dot3 ⟨0, 0, 1⟩ ⟨3/5, 0, 4/5⟩) •
        (⟨3/5, 0, 4/5⟩ : Vec3) - ⟨0, 0, 1⟩) / (9/10) = (5 : ℝ)/6),
    (by norm_num [dot3] :
      dot3 ⟨0, 1, 0⟩ ((dot3 ⟨0, 0, 1⟩ ⟨0, 0, 1⟩ / dot3 ⟨0, 0, 1⟩ ⟨3/5, 0, 4/5⟩) •
        (⟨3/5, 0, 4/5⟩ : Vec3) - ⟨0, 0, 1⟩) / (9/10) = (0 : ℝ))] at h4
  exact h4

/-- Full evaluation of the early update phase on the on-sphere witness list. -/
theorem updateCalcEarly_c4wit :
    updateCalcEarly [⟨3/5, 0, 4/5⟩, ⟨3/5, 0, 4/5⟩, ⟨-3/5, 0, 4/5⟩, ⟨-3/5, 0, 4/5⟩] 1 =
      .proceed (9/10) [⟨5/6, 0, 0⟩, ⟨-5/6, 0, 1⟩] := by
  unfold updateCalcEarly
  rw [if_neg (by simp : ¬ List.length [(⟨3/5, 0, 4/5⟩ : Vec3), ⟨3/5, 0, 4/5⟩,
    ⟨-3/5, 0, 4/5⟩, ⟨-3/5, 0, 4/5⟩] < 3)]
  rw [maxd_c4wit, if_neg (by norm_num : ¬ (3:ℝ)/5 > 1)]
  rw [avg_c4wit, vnormalize_c4wit, northOf_pole, east_pole, smul_one_pole, sqrt_c4]
  rw [(by norm_num : (1.2 : ℝ) * (3/5) * 1 / (4/5) = 9/10)]
  rw [projectLoop_c4wit]

/-- Witness for C4 (amended): four anchors on the unit sphere; the run
proceeds with `maxDist = 9/10` and both projected sites lie strictly inside
the unit disk, as the on-sphere theorem asserts. -/
theorem C4_witness :
    updateCalcEarly [⟨3/5, 0, 4/5⟩, ⟨3/5, 0, 4/5⟩, ⟨-3/5, 0, 4/5⟩, ⟨-3/5, 0, 4/5⟩] 1 =
      .proceed (9/10) [⟨5/6, 0, 0⟩, ⟨-5/6, 0, 1⟩] ∧
    ((9/10 : ℝ) =
        1.2 * maxCornerDist [⟨3/5, 0, 4/5⟩, ⟨3/5, 0, 4/5⟩, ⟨-3/5, 0, 4/5⟩, ⟨-3/5, 0, 4/5⟩] *
          1 / Real.sqrt (1 ^ 2 -
            maxCornerDist [⟨3/5, 0, 4/5⟩, ⟨3/5, 0, 4/5⟩, ⟨-3/5, 0, 4/5⟩,
              ⟨-3/5, 0, 4/5⟩] ^ 2) ∧
      ∀ s ∈ [(⟨5/6, 0, 0⟩ : SiteR), ⟨-5/6, 0, 1⟩], |s.x| < 1 ∧ |s.y| < 1) := by
  have hp : vnorm ⟨3/5, 0, 4/5⟩ = 1 := by
    refine vnorm_eval _ 1 (by norm_num) ?_
    simp only [normSq, dot3]
    norm_num
  have hq : vnorm ⟨-3/5, 0, 4/5⟩ = 1 := by
    refine vnorm_eval _ 1 (by norm_num) ?_
    simp only [normSq, dot3]
    norm_num
  have hsph : ∀ p ∈ [(⟨3/5, 0, 4/5⟩ : Vec3), ⟨3/5, 0, 4/5⟩, ⟨-3/5, 0, 4/5⟩,
      ⟨-3/5, 0, 4/5⟩], vnorm p = 1 := by
    intro p hmem
    have hc : p = ⟨3/5, 0, 4/5⟩ ∨ p = ⟨3/5, 0, 4/5⟩ ∨ p = ⟨-3/5, 0, 4/5⟩ ∨
        p = ⟨-3/5, 0, 4/5⟩ := by simpa using hmem
    rcases hc with rfl | rfl | rfl | rfl
    · exact hp
    · exact hp
    · exact hq
    · exact hq
  exact ⟨updateCalcEarly_c4wit,
    C4_onSphere_unit_disk _ 1 (9/10) _ (by norm_num) hsph updateCalcEarly_c4wit⟩

end MeasurementTools
